import Mathlib

/-!
Verification of the narrative-template photo organizer core.

Shallow embedding of the TypeScript source:
  * `src/features/photo-organizer/utils/photoOrdering.ts` (ordering engine),
  * `src/features/photo-organizer/services/projectService.ts` (state reconciler),
  * `src/lib/folderDetectionService.ts` (pattern detector).

Modelling conventions:
  * JS strings are Lean `String`; `localeCompare` is modelled as code-point
    lexicographic comparison returning -1/0/1.
  * `x || y` on strings (falsy = undefined / empty string) is `jsOrStr`/`jsOrOpt`.
  * JS numbers that hold integer milliseconds / counts are `Int`/`Nat`.
  * `Array.prototype.sort` with a comparator is modelled as the stable
    `List.mergeSort` with `le a b := compare a b ≤ 0` (ES2019 sort is stable).
  * `Map` built by `forEach((v, i) => map.set(...))` with `get` is modelled by
    an association list where a later `set` for the same key overwrites.
-/

set_option maxHeartbeats 1000000

namespace Narrative

/-- JS `x || y` where `x : string | undefined` and `y : string`:
`undefined` and `""` are falsy. -/
def jsOrStr : Option String → String → String
  | some s, y => if s = "" then y else s
  | none, y => y

/-- JS `x || y` where both sides are `string | null` (or `string | undefined`). -/
def jsOrOpt : Option String → Option String → Option String
  | some s, y => if s = "" then y else some s
  | none, y => y

/-- Code-point lexicographic three-way comparison on character lists,
the model of JS `localeCompare` (sign only ever matters in the source). -/
def charListCmp : List Char → List Char → Int
  | [], [] => 0
  | [], _ :: _ => -1
  | _ :: _, [] => 1
  | a :: as, b :: bs => if a < b then -1 else if b < a then 1 else charListCmp as bs

/-- `a.localeCompare b` modelled as lexicographic comparison. -/
def strCmp (a b : String) : Int := charListCmp a.data b.data

/-- `organizationConfidence` values from the source
(`'high' | 'medium' | 'low' | 'none'`). -/
inductive Confidence
  | high
  | medium
  | low
  | none
deriving DecidableEq, Repr

/-- The `ProjectPhoto` interface from `projectService.ts`.
`fileHandle`, `mimeType` and `metadata` are omitted (opaque browser handles /
unused by the verified logic).  The optional-`number | null` detection fields
are flattened to `Option` (`undefined` and `null` are not distinguished there
by any code path), while `subfolderOverride` keeps its three-state form
`undefined | null | string` as `Option (Option String)`. -/
structure ProjectPhoto where
  id : String
  originalName : String
  currentName : String
  timestamp : Int
  day : Option Int
  bucket : Option String
  sequence : Option Int
  favorite : Bool
  rating : Int
  archived : Bool
  thumbnail : String
  filePath : Option String
  sourceFolder : String
  folderHierarchy : List String
  detectedDay : Option Int
  detectedBucket : Option String
  isPreOrganized : Bool
  organizationConfidence : Confidence
  subfolderOverride : Option (Option String)
deriving DecidableEq, Repr

/-- `comparePhotos` from `photoOrdering.ts`:
timestamp, then `filePath || originalName || ''`, then `originalName`, then `id`. -/
def comparePhotos (a b : ProjectPhoto) : Int :=
  if a.timestamp ≠ b.timestamp then a.timestamp - b.timestamp
  else
    let pathA := jsOrStr a.filePath a.originalName
    let pathB := jsOrStr b.filePath b.originalName
    let pathCmp := strCmp pathA pathB
    if pathCmp ≠ 0 then pathCmp
    else
      let nameCmp := strCmp a.originalName b.originalName
      if nameCmp ≠ 0 then nameCmp
      else strCmp a.id b.id

/-- `OrderingResult` (the `groups` field is only produced by the grouping
modes, which no claim below touches, and is omitted). -/
structure OrderingResult where
  photos : List ProjectPhoto
  indexMap : List (String × Nat)
deriving DecidableEq, Repr

/-- `Map.set`: overwrite in place if the key exists, else append. -/
def mapSet (m : List (String × Nat)) (k : String) (v : Nat) : List (String × Nat) :=
  if m.any (fun kv => kv.1 = k) then m.map (fun kv => if kv.1 = k then (k, v) else kv)
  else m ++ [(k, v)]

/-- `Map.get` (first association; `mapSet` keeps keys unique). -/
def mapGet (m : List (String × Nat)) (k : String) : Option Nat :=
  (m.find? (fun kv => kv.1 = k)).map (·.2)

/-- `buildIndexMap` from `photoOrdering.ts`. -/
def buildIndexMap (photos : List ProjectPhoto) : OrderingResult :=
  { photos := photos
    indexMap := photos.enum.foldl (fun m ia => mapSet m ia.2.id ia.1) [] }

/-- `sortPhotos` from `photoOrdering.ts` called with no grouping and no video
separation (`options = {}`): base sort then `buildIndexMap`. -/
def sortPhotos (photos : List ProjectPhoto) : OrderingResult :=
  buildIndexMap (photos.mergeSort (fun a b => comparePhotos a b ≤ 0))

/-- `getPhotoIndex`: `indexMap.get(photoId) ?? -1`. -/
def getPhotoIndex (photoId : String) (indexMap : List (String × Nat)) : Int :=
  match mapGet indexMap photoId with
  | some n => (n : Int)
  | Option.none => -1

/-- The `direction` argument of `navigatePhotos`. -/
inductive Direction
  | next
  | prev
deriving DecidableEq, Repr

/-- The `while` loop of `navigatePhotos` when a filter is supplied: step by
±1 from `i` until the predicate holds or the index leaves the array. -/
def navLoop (photos : List ProjectPhoto) (f : ProjectPhoto → Bool)
    (dir : Direction) (i : Int) : Option ProjectPhoto :=
  if h : 0 ≤ i ∧ i < (photos.length : Int) then
    let p := photos.get ⟨i.toNat, by omega⟩
    if f p then some p
    else navLoop photos f dir (i + (match dir with | .next => 1 | .prev => -1))
  else none
termination_by (match dir with | .next => (photos.length : Int) - i | .prev => i + 1).toNat
decreasing_by
  cases dir <;> simp_all <;> omega

/-- `navigatePhotos` from `photoOrdering.ts`. -/
def navigatePhotos (currentPhotoId : String) (direction : Direction)
    (result : OrderingResult) (filter : Option (ProjectPhoto → Bool)) :
    Option ProjectPhoto :=
  let currentIndex := getPhotoIndex currentPhotoId result.indexMap
  if currentIndex = -1 then none
  else
    let step : Int := match direction with | .next => 1 | .prev => -1
    let nextIndex := currentIndex + step
    match filter with
    | some f => navLoop result.photos f direction nextIndex
    | Option.none =>
      if h : 0 ≤ nextIndex ∧ nextIndex < (result.photos.length : Int) then
        some (result.photos.get ⟨nextIndex.toNat, by omega⟩)
      else none

/-- The `pathA`/`pathB` key of `comparePhotos`: `photo.filePath || photo.originalName || ''`. -/
def pathKey (p : ProjectPhoto) : String := jsOrStr p.filePath p.originalName

theorem charListCmp_eq_zero_iff : ∀ (a b : List Char), charListCmp a b = 0 ↔ a = b
  | [], [] => by simp [charListCmp]
  | [], _ :: _ => by simp [charListCmp]
  | _ :: _, [] => by simp [charListCmp]
  | a :: as, b :: bs => by
    simp only [charListCmp, List.cons.injEq]
    rcases lt_trichotomy a b with h | h | h
    · simp [if_pos h, h.ne]
    · simp [h, lt_irrefl, charListCmp_eq_zero_iff as bs]
    · simp [if_neg (lt_asymm h), if_pos h, (ne_of_gt h)]

theorem charListCmp_swap : ∀ (a b : List Char), charListCmp a b = - charListCmp b a
  | [], [] => rfl
  | [], _ :: _ => rfl
  | _ :: _, [] => rfl
  | a :: as, b :: bs => by
    simp only [charListCmp]
    rcases lt_trichotomy a b with h | h | h
    · simp [if_pos h, if_neg (lt_asymm h), (ne_of_lt h)]
    · simp [h, lt_irrefl, charListCmp_swap as bs]
    · simp [if_neg (lt_asymm h), if_pos h, (ne_of_gt h)]

theorem charListCmp_lt_trans :
    ∀ {a b c : List Char}, charListCmp a b < 0 → charListCmp b c < 0 → charListCmp a c < 0
  | [], [], _, hab, _ => by simp [charListCmp] at hab
  | [], _ :: _, [], _, hbc => by simp [charListCmp] at hbc
  | [], _ :: _, _ :: _, _, _ => by simp [charListCmp]
  | _ :: _, [], _, hab, _ => by simp [charListCmp] at hab
  | _ :: _, _ :: _, [], _, hbc => by simp [charListCmp] at hbc
  | a :: as, b :: bs, c :: cs, hab, hbc => by
    simp only [charListCmp] at hab hbc ⊢
    rcases lt_trichotomy a b with h1 | h1 | h1
    · rcases lt_trichotomy b c with h2 | h2 | h2
      · simp [if_pos (lt_trans h1 h2)]
      · subst h2
        simp [if_pos h1]
      · rw [if_neg (lt_asymm h2), if_pos h2] at hbc
        omega
    · subst h1
      rw [if_neg (lt_irrefl a), if_neg (lt_irrefl a)] at hab
      rcases lt_trichotomy a c with h2 | h2 | h2
      · simp [if_pos h2]
      · subst h2
        rw [if_neg (lt_irrefl a), if_neg (lt_irrefl a)] at hbc
        rw [if_neg (lt_irrefl a), if_neg (lt_irrefl a)]
        exact charListCmp_lt_trans hab hbc
      · rw [if_neg (lt_asymm h2), if_pos h2] at hbc
        omega
    · rw [if_neg (lt_asymm h1), if_pos h1] at hab
      omega

theorem strCmp_eq_zero_iff (a b : String) : strCmp a b = 0 ↔ a = b := by
  rw [strCmp, charListCmp_eq_zero_iff]
  exact ⟨String.ext, fun h => by rw [h]⟩

theorem strCmp_swap (a b : String) : strCmp a b = - strCmp b a :=
  charListCmp_swap a.data b.data

theorem strCmp_lt_trans {a b c : String} (h1 : strCmp a b < 0) (h2 : strCmp b c < 0) :
    strCmp a c < 0 :=
  charListCmp_lt_trans h1 h2

theorem strCmp_self (a : String) : strCmp a a = 0 := by
  rw [strCmp_eq_zero_iff]

theorem strCmp_lt_of_lt_of_eq {x y z : String} (h1 : strCmp x y < 0) (h2 : strCmp y z = 0) :
    strCmp x z < 0 := by
  rw [strCmp_eq_zero_iff] at h2
  rwa [h2] at h1

theorem strCmp_lt_of_eq_of_lt {x y z : String} (h1 : strCmp x y = 0) (h2 : strCmp y z < 0) :
    strCmp x z < 0 := by
  rw [strCmp_eq_zero_iff] at h1
  rwa [← h1] at h2

theorem comparePhotos_def (a b : ProjectPhoto) :
    comparePhotos a b =
      if a.timestamp ≠ b.timestamp then a.timestamp - b.timestamp
      else if strCmp (pathKey a) (pathKey b) ≠ 0 then strCmp (pathKey a) (pathKey b)
      else if strCmp a.originalName b.originalName ≠ 0 then
        strCmp a.originalName b.originalName
      else strCmp a.id b.id := rfl

theorem comparePhotos_self (p : ProjectPhoto) : comparePhotos p p = 0 := by
  rw [comparePhotos_def]
  simp [strCmp_self]

theorem comparePhotos_swap (a b : ProjectPhoto) : comparePhotos a b = - comparePhotos b a := by
  rw [comparePhotos_def, comparePhotos_def]
  have hp := strCmp_swap (pathKey a) (pathKey b)
  have hn := strCmp_swap a.originalName b.originalName
  have hi := strCmp_swap a.id b.id
  split_ifs <;> omega

theorem comparePhotos_eq_zero_iff (a b : ProjectPhoto) :
    comparePhotos a b = 0 ↔
      a.timestamp = b.timestamp ∧ pathKey a = pathKey b ∧
      a.originalName = b.originalName ∧ a.id = b.id := by
  rw [comparePhotos_def]
  split_ifs with h1 h2 h3
  · exact iff_of_false (by omega) (fun h => h1 h.1)
  · exact iff_of_false h2 (fun h => h2 (by rw [h.2.1, strCmp_self]))
  · exact iff_of_false h3 (fun h => h3 (by rw [h.2.2.1, strCmp_self]))
  · rw [strCmp_eq_zero_iff]
    have e1 : a.timestamp = b.timestamp := by omega
    have e2 : pathKey a = pathKey b := (strCmp_eq_zero_iff _ _).1 (by omega)
    have e3 : a.originalName = b.originalName := (strCmp_eq_zero_iff _ _).1 (by omega)
    simp [e1, e2, e3]

theorem comparePhotos_lt_trans {a b c : ProjectPhoto}
    (hab : comparePhotos a b < 0) (hbc : comparePhotos b c < 0) :
    comparePhotos a c < 0 := by
  rw [comparePhotos_def] at hab hbc ⊢
  by_cases t1 : a.timestamp = b.timestamp
  · by_cases t2 : b.timestamp = c.timestamp
    · rw [if_neg (show ¬a.timestamp ≠ b.timestamp by omega)] at hab
      rw [if_neg (show ¬b.timestamp ≠ c.timestamp by omega)] at hbc
      rw [if_neg (show ¬a.timestamp ≠ c.timestamp by omega)]
      by_cases p1 : strCmp (pathKey a) (pathKey b) = 0
      · rw [if_neg (show ¬strCmp (pathKey a) (pathKey b) ≠ 0 by omega)] at hab
        by_cases p2 : strCmp (pathKey b) (pathKey c) = 0
        · rw [if_neg (show ¬strCmp (pathKey b) (pathKey c) ≠ 0 by omega)] at hbc
          have hpac : strCmp (pathKey a) (pathKey c) = 0 := by
            rw [strCmp_eq_zero_iff] at p1 p2 ⊢
            exact p1.trans p2
          rw [if_neg (show ¬strCmp (pathKey a) (pathKey c) ≠ 0 by omega)]
          by_cases n1 : strCmp a.originalName b.originalName = 0
          · rw [if_neg (show ¬strCmp a.originalName b.originalName ≠ 0 by omega)] at hab
            by_cases n2 : strCmp b.originalName c.originalName = 0
            · rw [if_neg (show ¬strCmp b.originalName c.originalName ≠ 0 by omega)] at hbc
              have hnac : strCmp a.originalName c.originalName = 0 := by
                rw [strCmp_eq_zero_iff] at n1 n2 ⊢
                exact n1.trans n2
              rw [if_neg (show ¬strCmp a.originalName c.originalName ≠ 0 by omega)]
              exact strCmp_lt_trans hab hbc
            · rw [if_pos (show strCmp b.originalName c.originalName ≠ 0 by omega)] at hbc
              have hlt := strCmp_lt_of_eq_of_lt n1 hbc
              rw [if_pos (show strCmp a.originalName c.originalName ≠ 0 by omega)]
              exact hlt
          · rw [if_pos (show strCmp a.originalName b.originalName ≠ 0 by omega)] at hab
            by_cases n2 : strCmp b.originalName c.originalName = 0
            · have hlt := strCmp_lt_of_lt_of_eq hab n2
              rw [if_pos (show strCmp a.originalName c.originalName ≠ 0 by omega)]
              exact hlt
            · rw [if_pos (show strCmp b.originalName c.originalName ≠ 0 by omega)] at hbc
              have hlt := strCmp_lt_trans hab hbc
              rw [if_pos (show strCmp a.originalName c.originalName ≠ 0 by omega)]
              exact hlt
        · rw [if_pos (show strCmp (pathKey b) (pathKey c) ≠ 0 by omega)] at hbc
          have hlt := strCmp_lt_of_eq_of_lt p1 hbc
          rw [if_pos (show strCmp (pathKey a) (pathKey c) ≠ 0 by omega)]
          exact hlt
      · rw [if_pos (show strCmp (pathKey a) (pathKey b) ≠ 0 by omega)] at hab
        by_cases p2 : strCmp (pathKey b) (pathKey c) = 0
        · have hlt := strCmp_lt_of_lt_of_eq hab p2
          rw [if_pos (show strCmp (pathKey a) (pathKey c) ≠ 0 by omega)]
          exact hlt
        · rw [if_pos (show strCmp (pathKey b) (pathKey c) ≠ 0 by omega)] at hbc
          have hlt := strCmp_lt_trans hab hbc
          rw [if_pos (show strCmp (pathKey a) (pathKey c) ≠ 0 by omega)]
          exact hlt
    · rw [if_pos (show b.timestamp ≠ c.timestamp by omega)] at hbc
      rw [if_pos (show a.timestamp ≠ c.timestamp by omega)]
      omega
  · rw [if_pos (show a.timestamp ≠ b.timestamp by omega)] at hab
    by_cases t2 : b.timestamp = c.timestamp
    · rw [if_pos (show a.timestamp ≠ c.timestamp by omega)]
      omega
    · rw [if_pos (show b.timestamp ≠ c.timestamp by omega)] at hbc
      rw [if_pos (show a.timestamp ≠ c.timestamp by omega)]
      omega

theorem comparePhotos_congr_right {b c : ProjectPhoto} (h : comparePhotos b c = 0)
    (a : ProjectPhoto) : comparePhotos a b = comparePhotos a c := by
  rw [comparePhotos_eq_zero_iff] at h
  obtain ⟨h1, h2, h3, h4⟩ := h
  rw [comparePhotos_def, comparePhotos_def, h1, h2, h3, h4]

theorem comparePhotos_congr_left {a b : ProjectPhoto} (h : comparePhotos a b = 0)
    (c : ProjectPhoto) : comparePhotos a c = comparePhotos b c := by
  rw [comparePhotos_eq_zero_iff] at h
  obtain ⟨h1, h2, h3, h4⟩ := h
  rw [comparePhotos_def, comparePhotos_def, h1, h2, h3, h4]

theorem comparePhotos_le_trans {a b c : ProjectPhoto}
    (hab : comparePhotos a b ≤ 0) (hbc : comparePhotos b c ≤ 0) :
    comparePhotos a c ≤ 0 := by
  have hab' : comparePhotos a b < 0 ∨ comparePhotos a b = 0 := by omega
  have hbc' : comparePhotos b c < 0 ∨ comparePhotos b c = 0 := by omega
  rcases hab' with h | h
  · rcases hbc' with h2 | h2
    · exact le_of_lt (comparePhotos_lt_trans h h2)
    · rw [← comparePhotos_congr_right h2 a]
      exact hab
  · rw [comparePhotos_congr_left h]
    exact hbc

theorem comparePhotos_total (a b : ProjectPhoto) :
    comparePhotos a b ≤ 0 ∨ comparePhotos b a ≤ 0 := by
  have := comparePhotos_swap a b
  omega

/-- A throwaway photo record for concrete witnesses: user fields defaulted,
identity fields as given. -/
def samplePhoto (id originalName : String) (timestamp : Int) (filePath : Option String) :
    ProjectPhoto :=
  { id := id, originalName := originalName, currentName := originalName,
    timestamp := timestamp, day := Option.none, bucket := Option.none,
    sequence := Option.none, favorite := false, rating := 0, archived := false,
    thumbnail := "", filePath := filePath, sourceFolder := "root",
    folderHierarchy := [], detectedDay := Option.none, detectedBucket := Option.none,
    isPreOrganized := false, organizationConfidence := Confidence.none,
    subfolderOverride := Option.none }

/-- C1: over any photo list with pairwise distinct ids, the base comparison of
the Ordering Engine (timestamp, then `filePath || originalName`, then
`originalName`, then `id`) is a strict total order — no two distinct photos
compare equal, the comparison is irreflexive-as-equality, asymmetric and
transitive — and `sortPhotos` with no grouping is idempotent on its own
output. -/
theorem C1_base_order_strict_total_idempotent (l : List ProjectPhoto)
    (hids : l.Pairwise (fun p q => p.id ≠ q.id)) :
    (∀ p ∈ l, ∀ q ∈ l, p ≠ q → comparePhotos p q ≠ 0) ∧
    (∀ p : ProjectPhoto, comparePhotos p p = 0) ∧
    (∀ p q : ProjectPhoto, comparePhotos p q < 0 → 0 < comparePhotos q p) ∧
    (∀ p q r : ProjectPhoto,
      comparePhotos p q < 0 → comparePhotos q r < 0 → comparePhotos p r < 0) ∧
    (sortPhotos (sortPhotos l).photos).photos = (sortPhotos l).photos := by
  refine ⟨?_, comparePhotos_self, ?_, fun p q r => comparePhotos_lt_trans, ?_⟩
  · intro p hp q hq hne h0
    have hsymm : Symmetric (fun p q : ProjectPhoto => p.id ≠ q.id) := fun x y h => h.symm
    have hdiff := hids.forall hsymm hp hq hne
    exact hdiff ((comparePhotos_eq_zero_iff p q).1 h0).2.2.2
  · intro p q h
    have := comparePhotos_swap p q
    omega
  · have trans : ∀ (a b c : ProjectPhoto),
        decide (comparePhotos a b ≤ 0) = true → decide (comparePhotos b c ≤ 0) = true →
        decide (comparePhotos a c ≤ 0) = true := by
      intro a b c h1 h2
      simp only [decide_eq_true_eq] at h1 h2 ⊢
      exact comparePhotos_le_trans h1 h2
    have total : ∀ (a b : ProjectPhoto),
        (decide (comparePhotos a b ≤ 0) || decide (comparePhotos b a ≤ 0)) = true := by
      intro a b
      simp only [Bool.or_eq_true, decide_eq_true_eq]
      exact comparePhotos_total a b
    show (buildIndexMap _).photos = (buildIndexMap _).photos
    simp only [buildIndexMap]
    exact List.mergeSort_of_sorted (List.sorted_mergeSort trans total _)

/-- Witness for C1 at a concrete two-photo list. -/
theorem C1_witness :
    (sortPhotos (sortPhotos [samplePhoto "a" "x.jpg" 5 (some "p/x.jpg"),
        samplePhoto "b" "y.jpg" 3 (some "p/y.jpg")]).photos).photos =
      (sortPhotos [samplePhoto "a" "x.jpg" 5 (some "p/x.jpg"),
        samplePhoto "b" "y.jpg" 3 (some "p/y.jpg")]).photos :=
  (C1_base_order_strict_total_idempotent _ (by decide)).2.2.2.2

theorem find?_map_replace (m : List (String × Nat)) (k : String) (v : Nat) (k2 : String) :
    ((m.map (fun kv => if kv.1 = k then (k, v) else kv)).find? (fun kv => kv.1 = k2)) =
      if k2 = k then (if m.any (fun kv => kv.1 = k) then some (k, v) else Option.none)
      else m.find? (fun kv => kv.1 = k2) := by
  induction m with
  | nil => by_cases h : k2 = k <;> simp [h]
  | cons kv rest ih =>
    simp only [List.map_cons, List.any_cons]
    by_cases h1 : kv.1 = k
    · by_cases h2 : k2 = k
      · subst h2
        simp [h1, List.find?_cons]
      · have h1' : ¬(k = k2) := fun hh => h2 hh.symm
        simp [h1, h1', List.find?_cons, ih, h2]
    · by_cases h2 : k2 = k
      · subst h2
        have hd : (kv.1 = k2) = False := by simp [h1]
        simp [hd, List.find?_cons, ih, Bool.false_or]
        rw [show (decide (kv.1 = k2)) = false by simp [h1]]
        simp only [Bool.false_or]
      · by_cases h3 : kv.1 = k2
        · simp [if_neg h1, h3, List.find?_cons, h2]
        · simp [if_neg h1, h3, List.find?_cons, ih, h2]

theorem mapGet_mapSet (m : List (String × Nat)) (k : String) (v : Nat) (k2 : String) :
    mapGet (mapSet m k v) k2 = if k2 = k then some v else mapGet m k2 := by
  unfold mapGet mapSet
  by_cases hany : m.any (fun kv => kv.1 = k) = true
  · rw [if_pos hany, find?_map_replace]
    split_ifs with h
    · simp [hany]
    · rfl
  · rw [if_neg hany, List.find?_append]
    by_cases h : k2 = k
    · subst h
      have hnone : m.find? (fun kv => kv.1 = k2) = Option.none := by
        rw [List.find?_eq_none]
        intro x hx he
        rw [List.any_eq_true] at hany
        exact hany ⟨x, hx, he⟩
      simp [hnone, List.find?_cons]
    · have h' : ¬(k = k2) := fun hh => h hh.symm
      simp [List.find?_cons, h', h]

theorem mapGet_foldl (ps : List (Nat × ProjectPhoto)) (m : List (String × Nat)) (k : String) :
    mapGet (ps.foldl (fun acc ia => mapSet acc ia.2.id ia.1) m) k =
      ((ps.reverse.find? (fun ia => ia.2.id = k)).map (·.1)).or (mapGet m k) := by
  induction ps generalizing m with
  | nil => simp
  | cons ia rest ih =>
    simp only [List.foldl_cons, List.reverse_cons, List.find?_append, ih, mapGet_mapSet]
    cases hr : rest.reverse.find? (fun ia => ia.2.id = k) with
    | some x => simp [hr]
    | none =>
      by_cases h : ia.2.id = k
      · simp [hr, List.find?_cons, h]
      · have h' : ¬(k = ia.2.id) := fun hh => h hh.symm
        simp [hr, List.find?_cons, h, h']

theorem mapGet_buildIndexMap (photos : List ProjectPhoto) (pid : String) :
    mapGet (buildIndexMap photos).indexMap pid =
      (photos.enum.reverse.find? (fun ia => ia.2.id = pid)).map (·.1) := by
  show mapGet (photos.enum.foldl (fun m ia => mapSet m ia.2.id ia.1) []) pid = _
  rw [mapGet_foldl]
  simp [mapGet]

theorem mapGet_buildIndexMap_some {photos : List ProjectPhoto} {pid : String} {i : Nat}
    (h : mapGet (buildIndexMap photos).indexMap pid = some i) :
    ∃ hi : i < photos.length, (photos.get ⟨i, hi⟩).id = pid := by
  rw [mapGet_buildIndexMap] at h
  cases hf : photos.enum.reverse.find? (fun ia => ia.2.id = pid) with
  | none => rw [hf] at h; simp at h
  | some x =>
    rw [hf] at h
    have hx1 : x.1 = i := by simpa using h
    have hpx : x.2.id = pid := by simpa using List.find?_some hf
    have hmem : x ∈ photos.enum := List.mem_reverse.1 (List.mem_of_find?_eq_some hf)
    have hget : photos[x.1]? = some x.2 := List.mem_enum_iff_getElem?.1 hmem
    have hlen : x.1 < photos.length := by
      by_contra hc
      rw [List.getElem?_eq_none (by omega)] at hget
      simp at hget
    refine ⟨by omega, ?_⟩
    have : photos[x.1] = x.2 := by
      have := List.getElem?_eq_getElem hlen
      rw [this] at hget
      simpa using hget
    subst hx1
    simp only [List.get_eq_getElem]
    rw [this, hpx]

theorem mapGet_buildIndexMap_of_distinct {photos : List ProjectPhoto}
    (hids : photos.Pairwise (fun p q => p.id ≠ q.id)) {i : Nat} (hi : i < photos.length) :
    mapGet (buildIndexMap photos).indexMap (photos.get ⟨i, hi⟩).id = some i := by
  rw [mapGet_buildIndexMap]
  have hmemi : ((i, photos.get ⟨i, hi⟩) : Nat × ProjectPhoto) ∈ photos.enum.reverse := by
    rw [List.mem_reverse, List.mem_enum_iff_getElem?]
    simp [List.getElem?_eq_getElem hi]
  have hex : (photos.enum.reverse.find? (fun ia => ia.2.id = (photos.get ⟨i, hi⟩).id)).isSome := by
    rw [List.find?_isSome]
    exact ⟨(i, photos.get ⟨i, hi⟩), hmemi, by simp⟩
  cases hf : photos.enum.reverse.find? (fun ia => ia.2.id = (photos.get ⟨i, hi⟩).id) with
  | none => rw [hf] at hex; simp at hex
  | some x =>
    have hpx : x.2.id = (photos.get ⟨i, hi⟩).id := by simpa using List.find?_some hf
    have hmem : x ∈ photos.enum := List.mem_reverse.1 (List.mem_of_find?_eq_some hf)
    have hget : photos[x.1]? = some x.2 := List.mem_enum_iff_getElem?.1 hmem
    have hlen : x.1 < photos.length := by
      by_contra hc
      rw [List.getElem?_eq_none (by omega)] at hget
      simp at hget
    have hgx : photos[x.1] = x.2 := by
      have := List.getElem?_eq_getElem hlen
      rw [this] at hget
      simpa using hget
    have heq : x.1 = i := by
      by_contra hne
      have hpair := List.pairwise_iff_getElem.1 hids
      rcases Nat.lt_or_ge x.1 i with hlt | hge
      · exact hpair x.1 i hlen hi hlt (by rw [hgx]; simpa using hpx)
      · have hlt2 : i < x.1 := by omega
        exact hpair i x.1 hi hlen hlt2 (by rw [hgx]; simp [List.get_eq_getElem] at hpx; simp [hpx])
    simp [heq]

theorem mapGet_buildIndexMap_none {photos : List ProjectPhoto} {pid : String}
    (h : ∀ p ∈ photos, p.id ≠ pid) :
    mapGet (buildIndexMap photos).indexMap pid = Option.none := by
  rw [mapGet_buildIndexMap]
  have hnone : photos.enum.reverse.find? (fun ia => ia.2.id = pid) = Option.none := by
    rw [List.find?_eq_none]
    intro x hx
    have hmem : x ∈ photos.enum := List.mem_reverse.1 hx
    have hget : photos[x.1]? = some x.2 := List.mem_enum_iff_getElem?.1 hmem
    have hx2 : x.2 ∈ photos := by
      have hlen : x.1 < photos.length := by
        by_contra hc
        rw [List.getElem?_eq_none (by omega)] at hget
        simp at hget
      have := List.getElem?_eq_getElem hlen
      rw [this] at hget
      have hgx : photos[x.1] = x.2 := by simpa using hget
      rw [← hgx]
      exact List.getElem_mem hlen
    exact fun hc => h x.2 hx2 (by simpa using hc)
  simp [hnone]

theorem navLoop_next (photos : List ProjectPhoto) (f : ProjectPhoto → Bool) :
    ∀ (n : Nat) (j : Int), 0 ≤ j → photos.length - j.toNat = n →
      navLoop photos f Direction.next j = (photos.drop j.toNat).find? f := by
  intro n
  induction n with
  | zero =>
    intro j hj hn
    rw [navLoop, dif_neg (by omega)]
    rw [List.drop_eq_nil_of_le (by omega)]
    simp
  | succ n ih =>
    intro j hj hn
    have hjl : j.toNat < photos.length := by omega
    rw [navLoop, dif_pos ⟨hj, by omega⟩]
    rw [List.drop_eq_getElem_cons hjl, List.find?_cons]
    simp only [List.get_eq_getElem]
    by_cases hf : f photos[j.toNat]
    · simp [hf]
    · simp only [hf, Bool.false_eq_true, if_false]
      have hstep : j + (match Direction.next with | Direction.next => (1 : Int) | Direction.prev => -1) = j + 1 := rfl
      rw [hstep, ih (j + 1) (by omega) (by omega)]
      have : (j + 1).toNat = j.toNat + 1 := by omega
      rw [this]

theorem navLoop_prev (photos : List ProjectPhoto) (f : ProjectPhoto → Bool) :
    ∀ (n : Nat) (j : Int), j < (photos.length : Int) → (j + 1).toNat = n →
      navLoop photos f Direction.prev j = ((photos.take (j + 1).toNat).reverse).find? f := by
  intro n
  induction n with
  | zero =>
    intro j hj hn
    rw [navLoop, dif_neg (by omega)]
    rw [hn, List.take_zero]
    simp
  | succ n ih =>
    intro j hj hn
    have hj0 : 0 ≤ j := by omega
    have hjl : j.toNat < photos.length := by omega
    rw [navLoop, dif_pos ⟨hj0, by omega⟩]
    have htake : (photos.take ((j + 1).toNat)).reverse =
        photos[j.toNat] :: (photos.take j.toNat).reverse := by
      have h1 : (j + 1).toNat = j.toNat + 1 := by omega
      rw [h1, List.take_succ, List.getElem?_eq_getElem hjl]
      simp
    rw [htake, List.find?_cons]
    simp only [List.get_eq_getElem]
    by_cases hf : f photos[j.toNat]
    · simp [hf]
    · simp only [hf, Bool.false_eq_true, if_false]
      have hstep : j + (match Direction.prev with | Direction.next => (1 : Int) | Direction.prev => -1) = j - 1 := by
        show j + (-1) = j - 1
        omega
      rw [hstep, ih (j - 1) (by omega) (by omega)]
      have : (j - 1 + 1).toNat = j.toNat := by omega
      rw [this]

theorem getElem_idx_congr (photos : List ProjectPhoto) {j k : Nat} (hj : j < photos.length)
    (hk : k < photos.length) (h : j = k) : photos[j] = photos[k] := by
  subst h
  rfl

/-- C8: for an ordering result built by `sortPhotos` over photos with pairwise
distinct ids, and any photo id present in its index map: stepping `next` with
no filter and then `prev` from the returned photo comes back to the original
photo, unless the first step is at the boundary, in which case `navigatePhotos`
returns `none` (no wraparound, no error); with a filter, navigation returns the
first photo in the chosen direction satisfying the predicate, or `none` at the
boundary. -/
theorem C8_navigate_next_prev_roundtrip (l : List ProjectPhoto)
    (hids : l.Pairwise (fun p q => p.id ≠ q.id)) (pid : String) (i : Nat)
    (hmap : mapGet (sortPhotos l).indexMap pid = some i) :
    ((∃ p, navigatePhotos pid Direction.next (sortPhotos l) Option.none = some p ∧
        navigatePhotos p.id Direction.prev (sortPhotos l) Option.none =
          (sortPhotos l).photos[i]? ∧
        ((sortPhotos l).photos[i]?).map (fun q => q.id) = some pid) ∨
      (navigatePhotos pid Direction.next (sortPhotos l) Option.none = Option.none ∧
        i + 1 = (sortPhotos l).photos.length)) ∧
    (∀ f : ProjectPhoto → Bool,
      navigatePhotos pid Direction.next (sortPhotos l) (some f) =
        ((sortPhotos l).photos.drop (i + 1)).find? f ∧
      navigatePhotos pid Direction.prev (sortPhotos l) (some f) =
        (((sortPhotos l).photos.take i).reverse).find? f) := by
  have hsorted : (sortPhotos l).photos =
      l.mergeSort (fun a b => comparePhotos a b ≤ 0) := rfl
  have hidx : (sortPhotos l).indexMap = (buildIndexMap (sortPhotos l).photos).indexMap := rfl
  have hids2 : (sortPhotos l).photos.Pairwise (fun p q => p.id ≠ q.id) := by
    rw [hsorted]
    have hperm := List.mergeSort_perm l (fun a b => comparePhotos a b ≤ 0)
    exact ((hperm.pairwise_iff (fun h => h.symm)).2 hids)
  obtain ⟨hi, hgetid⟩ := mapGet_buildIndexMap_some (hidx ▸ hmap)
  have hgi : getPhotoIndex pid (sortPhotos l).indexMap = (i : Int) := by
    unfold getPhotoIndex
    rw [hmap]
  constructor
  · by_cases hnext : i + 1 < (sortPhotos l).photos.length
    · left
      have hstep : navigatePhotos pid Direction.next (sortPhotos l) Option.none =
          some ((sortPhotos l).photos.get ⟨i + 1, hnext⟩) := by
        simp only [navigatePhotos, hgi]
        rw [if_neg (show ¬((i : Int) = -1) by omega)]
        have hc : (0 : Int) ≤ (i : Int) + 1 ∧ (i : Int) + 1 < ((sortPhotos l).photos.length : Int) := by
          constructor <;> omega
        rw [dif_pos hc]
        simp only [List.get_eq_getElem]
        exact congrArg some (getElem_idx_congr (sortPhotos l).photos (by omega) hnext (by omega))
      refine ⟨_, hstep, ?_, ?_⟩
      · have hmap2 : mapGet (sortPhotos l).indexMap
            ((sortPhotos l).photos.get ⟨i + 1, hnext⟩).id = some (i + 1) := by
          rw [hidx]
          exact mapGet_buildIndexMap_of_distinct hids2 hnext
        simp only [navigatePhotos, getPhotoIndex, hmap2]
        rw [if_neg (show ¬(((i : Nat) + 1 : Nat) : Int) = -1 by omega)]
        have hc : (0 : Int) ≤ (((i : Nat) + 1 : Nat) : Int) + (-1) ∧
            (((i : Nat) + 1 : Nat) : Int) + (-1) < ((sortPhotos l).photos.length : Int) := by
          constructor <;> omega
        rw [dif_pos hc]
        rw [List.getElem?_eq_getElem hi]
        simp only [List.get_eq_getElem]
        exact congrArg some (getElem_idx_congr (sortPhotos l).photos (by omega) hi (by omega))
      · rw [List.getElem?_eq_getElem hi]
        simp only [List.get_eq_getElem] at hgetid
        simp [hgetid]
    · right
      constructor
      · simp only [navigatePhotos, hgi]
        rw [if_neg (show ¬((i : Int) = -1) by omega)]
        rw [dif_neg (by omega)]
      · omega
  · intro f
    constructor
    · simp only [navigatePhotos, hgi]
      rw [if_neg (show ¬((i : Int) = -1) by omega)]
      have hloop := navLoop_next (sortPhotos l).photos f
        ((sortPhotos l).photos.length - ((i : Int) + 1).toNat) ((i : Int) + 1) (by omega) rfl
      rw [hloop]
      have h2 : ((i : Int) + 1).toNat = i + 1 := by omega
      rw [h2]
    · simp only [navigatePhotos, hgi]
      rw [if_neg (show ¬((i : Int) = -1) by omega)]
      have hloop := navLoop_prev (sortPhotos l).photos f
        (((i : Int) + -1 + 1).toNat) ((i : Int) + -1) (by omega) rfl
      rw [hloop]
      have h2 : ((i : Int) + -1 + 1).toNat = i := by omega
      rw [h2]

/-- C10: `navigatePhotos` with a photo id absent from the ordering result's
index map returns `none` in both directions, with or without a filter — never
an error, never a photo. -/
theorem C10_navigate_unknown_id (l : List ProjectPhoto) (pid : String)
    (dir : Direction) (filt : Option (ProjectPhoto → Bool))
    (h : ∀ p ∈ (sortPhotos l).photos, p.id ≠ pid) :
    navigatePhotos pid dir (sortPhotos l) filt = Option.none := by
  have hmap : mapGet (sortPhotos l).indexMap pid = Option.none :=
    mapGet_buildIndexMap_none h
  simp only [navigatePhotos, getPhotoIndex, hmap]
  simp

/-- Witness for C8 at a concrete one-photo result (boundary case). -/
theorem C8_witness :
    (∃ p, navigatePhotos "a" Direction.next
        (sortPhotos [samplePhoto "a" "x.jpg" 1 (some "x.jpg")]) Option.none = some p ∧
      navigatePhotos p.id Direction.prev
        (sortPhotos [samplePhoto "a" "x.jpg" 1 (some "x.jpg")]) Option.none =
        (sortPhotos [samplePhoto "a" "x.jpg" 1 (some "x.jpg")]).photos[0]? ∧
      ((sortPhotos [samplePhoto "a" "x.jpg" 1 (some "x.jpg")]).photos[0]?).map
        (fun q => q.id) = some "a") ∨
    (navigatePhotos "a" Direction.next
        (sortPhotos [samplePhoto "a" "x.jpg" 1 (some "x.jpg")]) Option.none = Option.none ∧
      0 + 1 = (sortPhotos [samplePhoto "a" "x.jpg" 1 (some "x.jpg")]).photos.length) :=
  (C8_navigate_next_prev_roundtrip [samplePhoto "a" "x.jpg" 1 (some "x.jpg")]
    (by decide) "a" 0
    (by simp only [sortPhotos, List.mergeSort_singleton]; decide)).1

/-- Witness for C10 at a concrete input with a stale id. -/
theorem C10_witness :
    navigatePhotos "zzz" Direction.prev
      (sortPhotos [samplePhoto "a" "x.jpg" 1 (some "x.jpg")]) Option.none = Option.none :=
  C10_navigate_unknown_id [samplePhoto "a" "x.jpg" 1 (some "x.jpg")] "zzz"
    Direction.prev Option.none
    (by simp only [sortPhotos, List.mergeSort_singleton]; decide)

/-! ### State reconciler (`projectService.ts`) -/

/-- One entry of the serialized `edits` list, keyed by `filePath`.  The
serialized form also carries `sourceFolder`/`folderHierarchy`/detection
fields, but the merge in `getState` reads only the fields below, so only they
are modelled. -/
structure CacheEntry where
  filePath : Option String
  day : Option Int
  bucket : Option String
  sequence : Option Int
  favorite : Bool
  rating : Int
  archived : Bool
  currentName : String
  subfolderOverride : Option (Option String)
deriving DecidableEq, Repr

/-- The merge object literal in `getState` (one fresh photo + its cache
entry): spread of the fresh photo, then the editable fields from the cache —
`bucket` via `cached.bucket || photo.bucket`. -/
def mergeCachedEdit (photo : ProjectPhoto) (cached : CacheEntry) : ProjectPhoto :=
  { photo with
    day := cached.day
    bucket := jsOrOpt cached.bucket photo.bucket
    sequence := cached.sequence
    favorite := cached.favorite
    rating := cached.rating
    archived := cached.archived
    currentName := cached.currentName
    subfolderOverride := cached.subfolderOverride }

/-- The `cachedEdits` map of `getState`: entries are inserted only under a
truthy `filePath` (later entries overwrite earlier ones with the same path),
then looked up with `get`: the last entry with the given nonempty path wins. -/
def lookupEdit (edits : List CacheEntry) (path : String) : Option CacheEntry :=
  edits.reverse.find? (fun e =>
    match e.filePath with
    | some p => p ≠ "" ∧ p = path
    | Option.none => false)

/-- Lines 732–760 of `getState`: overlay cached edits onto the fresh photos by
`filePath` (photos with a falsy path, or no cache entry, pass through
untouched); when `stored.edits` is absent nothing is applied. -/
def applyCachedEdits (freshPhotos : List ProjectPhoto) (edits : Option (List CacheEntry)) :
    List ProjectPhoto :=
  match edits with
  | Option.none => freshPhotos
  | some es =>
    freshPhotos.map (fun photo =>
      match photo.filePath with
      | some p =>
        if p = "" then photo
        else
          match lookupEdit es p with
          | some cached => mergeCachedEdit photo cached
          | Option.none => photo
      | Option.none => photo)

/-- JS `s.toLowerCase()` (ASCII case mapping). -/
def jsToLower (s : String) : String := String.mk (s.data.map Char.toLower)

/-- Does `t` occur as a contiguous run inside the list? -/
def containsRun (t : List Char) : List Char → Bool
  | [] => t.isEmpty
  | c :: rest => t.isPrefixOf (c :: rest) || containsRun t rest

/-- JS `s.includes(t)`. -/
def strIncludes (s t : String) : Bool := containsRun t.data s.data

/-- JS `s.endsWith(t)`. -/
def strEndsWith (s t : String) : Bool := t.data.isSuffixOf s.data

/-- Character class `[a-z0-9]` (the input is already lowercased). -/
def isAlnumLower (c : Char) : Bool := ('a' ≤ c ∧ c ≤ 'z') ∨ ('0' ≤ c ∧ c ≤ '9')

/-- `replace(/[^a-z0-9]+/g, ' ')`: each maximal run of characters outside
`[a-z0-9]` becomes a single space (the flag records whether the previous
character belonged to such a run). -/
def collapseAux : Bool → List Char → List Char
  | _, [] => []
  | prevSep, c :: rest =>
    if isAlnumLower c then c :: collapseAux false rest
    else if prevSep then collapseAux true rest
    else ' ' :: collapseAux true rest

/-- JS whitespace for `trim`. -/
def isJsSpace (c : Char) : Bool :=
  c = ' ' ∨ c = '\t' ∨ c = '\n' ∨ c = '\r' ∨ c = '\x0b' ∨ c = '\x0c'

/-- JS `s.trim()`: strip whitespace from both ends. -/
def jsTrim (s : String) : String :=
  String.mk (((s.data.dropWhile isJsSpace).reverse.dropWhile isJsSpace).reverse)

/-- `isArchiveFolderSegment` from `projectService.ts`. -/
def isArchiveFolderSegment (segment : String) (archiveFolder : String) : Bool :=
  let normalized := jsToLower segment
  let simplified := jsTrim (String.mk (collapseAux false normalized.data))
  let explicit := jsToLower archiveFolder
  if explicit ≠ "" ∧ normalized = explicit then true
  else if normalized = "archive" ∨ normalized = "archives" then true
  else if strEndsWith normalized "_archive" ∨ strEndsWith normalized "-archive" then true
  else if strIncludes normalized "archive" ∨ strIncludes simplified "archive" then true
  else false

/-- `path.split(/[\\/]/)`: cut at every slash or backslash. -/
def splitPathAux : List Char → List Char → List String
  | [], acc => [String.mk acc.reverse]
  | c :: rest, acc =>
    if c = '/' ∨ c = '\\' then String.mk acc.reverse :: splitPathAux rest []
    else splitPathAux rest (c :: acc)

/-- `path.split(/[\\/]/).filter(Boolean)`: path segments with empties dropped. -/
def splitPathSegments (path : String) : List String :=
  (splitPathAux path.data []).filter (fun s => s ≠ "")

/-- `applyArchiveFolder` from `projectService.ts`: force `archived = true` and
`bucket = 'X'` on every photo whose path contains an archive segment; a falsy
`archiveFolder` disables the pass entirely. -/
def applyArchiveFolder (photos : List ProjectPhoto) (archiveFolder : String) :
    List ProjectPhoto :=
  if archiveFolder = "" then photos
  else
    photos.map (fun photo =>
      match photo.filePath with
      | Option.none => photo
      | some fp =>
        if (splitPathSegments fp).any (fun seg => isArchiveFolderSegment seg archiveFolder) then
          { photo with archived := true, bucket := some "X" }
        else photo)

/-- `folderStructure` of `ProjectSettings`. -/
structure FolderStructure where
  daysFolder : String
  archiveFolder : String
  favoritesFolder : String
  metaFolder : String
deriving DecidableEq, Repr

/-- `ProjectSettings`; `folderStructure` is optional here because `getState`
reads it from parsed JSON through `settings.folderStructure?.archiveFolder`. -/
structure ProjectSettings where
  autoDay : Bool
  folderStructure : Option FolderStructure
deriving DecidableEq, Repr

/-- `DEFAULT_SETTINGS.folderStructure` from `projectService.ts`. -/
def DEFAULT_FOLDER_STRUCTURE : FolderStructure :=
  { daysFolder := "01_DAYS", archiveFolder := "98_ARCHIVE",
    favoritesFolder := "FAV", metaFolder := "_meta" }

/-- `DEFAULT_SETTINGS` from `projectService.ts`. -/
def DEFAULT_SETTINGS : ProjectSettings :=
  { autoDay := true, folderStructure := some DEFAULT_FOLDER_STRUCTURE }

/-- The parsed blob `stored` read from the state store by `getState` (a
missing raw string parses as `{}`: all fields absent). -/
structure StoredState where
  projectName : Option String
  rootPath : Option String
  settings : Option ProjectSettings
  dayLabels : Option (List (String × String))
  dayContainers : Option (List String)
  lastModified : Option Int
  edits : Option (List CacheEntry)
deriving Repr

/-- The `ProjectState` record assembled by `getState` (fields the verified
logic produces). -/
structure ProjectState where
  projectName : String
  rootPath : String
  photos : List ProjectPhoto
  settings : ProjectSettings
  dayLabels : List (String × String)
  dayContainers : List String
  lastModified : Option Int
deriving Repr

/-- `settings.folderStructure?.archiveFolder || DEFAULT_SETTINGS.folderStructure.archiveFolder`
with `settings = stored.settings || DEFAULT_SETTINGS`. -/
def effectiveArchiveFolder (stored : StoredState) : String :=
  let settings := match stored.settings with
    | some s => s
    | Option.none => DEFAULT_SETTINGS
  jsOrStr (settings.folderStructure.map (fun fs => fs.archiveFolder))
    DEFAULT_FOLDER_STRUCTURE.archiveFolder

/-- The photo pipeline of `getState`: cached-edit overlay, then the
unconditional archive-folder pass. -/
def reconcilePhotos (stored : StoredState) (freshPhotos : List ProjectPhoto) :
    List ProjectPhoto :=
  applyArchiveFolder (applyCachedEdits freshPhotos stored.edits) (effectiveArchiveFolder stored)

/-- The body of `getState` after the folder handle is present and read
permission granted (handle retrieval, the permission prompt, the state-store
read and the filesystem scan are the collaborators; their results
`handleName`, `stored`, `freshPhotos` are inputs).  `getState` performs no
state-store write on any path, so the model returns only the result: a typed
error when the fresh scan is empty, else the reconciled `ProjectState`. -/
def getStateModel (handleName : String) (stored : StoredState)
    (freshPhotos : List ProjectPhoto) : Except String ProjectState :=
  if freshPhotos.length = 0 then
    Except.error "Project folder access is no longer available. Please reselect the folder."
  else
    let settings := match stored.settings with
      | some s => s
      | Option.none => DEFAULT_SETTINGS
    Except.ok
      { projectName := jsOrStr stored.projectName handleName
        rootPath := jsOrStr stored.rootPath handleName
        photos := reconcilePhotos stored freshPhotos
        settings := settings
        dayLabels := (stored.dayLabels).getD []
        dayContainers := (stored.dayContainers).getD []
        lastModified := stored.lastModified }

theorem jsOrStr_ne_empty (x : Option String) {d : String} (hd : d ≠ "") : jsOrStr x d ≠ "" := by
  cases x with
  | none => exact hd
  | some s =>
    simp only [jsOrStr]
    split_ifs with hs
    · exact hd
    · exact hs

/-- Concrete fresh photo for the C2 counterexample: the path detector put it
in bucket `A`. -/
def c2Photo : ProjectPhoto :=
  { samplePhoto "p1" "x.jpg" 10 (some "p/x.jpg") with bucket := some "A" }

/-- Concrete cache entry for the C2 counterexample: the user cleared the
bucket (`bucket = null`). -/
def c2Entry : CacheEntry :=
  { filePath := some "p/x.jpg", day := some 2, bucket := Option.none,
    sequence := Option.none, favorite := true, rating := 0, archived := false,
    currentName := "x.jpg", subfolderOverride := Option.none }

/-- C2 counterexample: the claim says reconciliation overlays **all** cached
editable fields, bucket included; but for a cache entry with `bucket = null`
the merge keeps the freshly detected bucket (`cached.bucket || photo.bucket`),
so the merged bucket is `some "A"`, not the cached `null`. -/
theorem C2_counterexample :
    (applyCachedEdits [c2Photo] (some [c2Entry])).map (fun p => p.bucket) = [some "A"] ∧
    c2Entry.bucket = Option.none ∧
    (applyCachedEdits [c2Photo] (some [c2Entry])).map (fun p => p.bucket) ≠
      [c2Entry.bucket] := by
  refine ⟨by decide, rfl, by decide⟩

/-- C2 (amended): for every fresh photo with a truthy `filePath` whose path has
a cache entry, the merge overlays the cached `day`, `sequence`, `favorite`,
`rating`, `archived`, `currentName` and `subfolderOverride` unconditionally,
and the cached `bucket` only when it is truthy (non-null, non-empty) — a falsy
cached bucket keeps the freshly detected bucket; non-editable fields
(`thumbnail`, detection provenance) always come from the fresh scan. -/
theorem C2_merge_overlay (photo : ProjectPhoto) (cached : CacheEntry)
    (freshPhotos : List ProjectPhoto) (edits : List CacheEntry) (p : String)
    (hp : photo ∈ freshPhotos) (hpath : photo.filePath = some p) (hne : p ≠ "")
    (hlook : lookupEdit edits p = some cached) :
    mergeCachedEdit photo cached ∈ applyCachedEdits freshPhotos (some edits) ∧
    (mergeCachedEdit photo cached).day = cached.day ∧
    (mergeCachedEdit photo cached).bucket = jsOrOpt cached.bucket photo.bucket ∧
    (∀ b, cached.bucket = some b → b ≠ "" →
      (mergeCachedEdit photo cached).bucket = some b) ∧
    (mergeCachedEdit photo cached).sequence = cached.sequence ∧
    (mergeCachedEdit photo cached).favorite = cached.favorite ∧
    (mergeCachedEdit photo cached).rating = cached.rating ∧
    (mergeCachedEdit photo cached).archived = cached.archived ∧
    (mergeCachedEdit photo cached).currentName = cached.currentName ∧
    (mergeCachedEdit photo cached).subfolderOverride = cached.subfolderOverride ∧
    (mergeCachedEdit photo cached).thumbnail = photo.thumbnail ∧
    (mergeCachedEdit photo cached).detectedDay = photo.detectedDay ∧
    (mergeCachedEdit photo cached).detectedBucket = photo.detectedBucket ∧
    (mergeCachedEdit photo cached).isPreOrganized = photo.isPreOrganized ∧
    (mergeCachedEdit photo cached).organizationConfidence = photo.organizationConfidence := by
  refine ⟨?_, rfl, rfl, ?_, rfl, rfl, rfl, rfl, rfl, rfl, rfl, rfl, rfl, rfl, rfl⟩
  · unfold applyCachedEdits
    refine List.mem_map.2 ⟨photo, hp, ?_⟩
    simp only [hpath]
    rw [if_neg hne, hlook]
  · intro b hb hbne
    show jsOrOpt cached.bucket photo.bucket = some b
    rw [hb]
    simp [jsOrOpt, hbne]

/-- Concrete photo for the C2 witness. -/
def c2wPhoto : ProjectPhoto := samplePhoto "w1" "y.jpg" 5 (some "d/y.jpg")

/-- Concrete cache entry for the C2 witness (`bucket="B"`, `favorite=true`). -/
def c2wEntry : CacheEntry :=
  { filePath := some "d/y.jpg", day := some 3, bucket := some "B",
    sequence := Option.none, favorite := true, rating := 2, archived := false,
    currentName := "y2.jpg", subfolderOverride := some Option.none }

/-- Witness for C2 (amended) at a concrete merge. -/
theorem C2_witness :
    mergeCachedEdit c2wPhoto c2wEntry ∈ applyCachedEdits [c2wPhoto] (some [c2wEntry]) ∧
    (mergeCachedEdit c2wPhoto c2wEntry).bucket = some "B" ∧
    (mergeCachedEdit c2wPhoto c2wEntry).favorite = true ∧
    (mergeCachedEdit c2wPhoto c2wEntry).thumbnail = c2wPhoto.thumbnail := by
  have h := C2_merge_overlay c2wPhoto c2wEntry [c2wPhoto] [c2wEntry] "d/y.jpg"
    (by decide) rfl (by decide) (by decide)
  exact ⟨h.1, h.2.2.2.1 "B" rfl (by decide), h.2.2.2.2.2.1.trans rfl, h.2.2.2.2.2.2.2.2.2.2.1⟩

/-- C3: after the merge step of `getState`, the archive-folder pass (run with
the configured archive-folder name falling back to the default, hence always
nonempty) forces `archived = true` and `bucket = "X"` on every photo whose
path contains a segment recognized by `isArchiveFolderSegment` (exact match to
the configured name, or a fuzzy match containing the token "archive"),
overriding whatever the cache said. -/
theorem C3_archive_folder_override (stored : StoredState) (freshPhotos : List ProjectPhoto) :
    (∀ handleName st, getStateModel handleName stored freshPhotos = Except.ok st →
      st.photos = reconcilePhotos stored freshPhotos) ∧
    (∀ q ∈ reconcilePhotos stored freshPhotos, ∀ fp, q.filePath = some fp →
      (splitPathSegments fp).any
        (fun seg => isArchiveFolderSegment seg (effectiveArchiveFolder stored)) = true →
      q.archived = true ∧ q.bucket = some "X") := by
  constructor
  · intro handleName st hok
    unfold getStateModel at hok
    split at hok
    · exact absurd hok (by simp)
    · simp only [Except.ok.injEq] at hok
      rw [← hok]
  · intro q hq fp hfp hseg
    have heff : effectiveArchiveFolder stored ≠ "" := by
      unfold effectiveArchiveFolder
      exact jsOrStr_ne_empty _ (by decide)
    unfold reconcilePhotos applyArchiveFolder at hq
    rw [if_neg heff] at hq
    obtain ⟨p, hp, hfq⟩ := List.mem_map.1 hq
    cases hpf : p.filePath with
    | none =>
      simp only [hpf] at hfq
      rw [← hfq] at hfp
      rw [hpf] at hfp
      exact absurd hfp (by simp)
    | some fp2 =>
      simp only [hpf] at hfq
      by_cases hcond : (splitPathSegments fp2).any
          (fun seg => isArchiveFolderSegment seg (effectiveArchiveFolder stored)) = true
      · rw [if_pos hcond] at hfq
        rw [← hfq]
        exact ⟨rfl, rfl⟩
      · rw [if_neg hcond] at hfq
        rw [← hfq] at hfp
        rw [hpf] at hfp
        have : fp2 = fp := by simpa using hfp
        rw [this] at hcond
        exact absurd hseg hcond

/-- Concrete photo physically located under the archive folder. -/
def c3Photo : ProjectPhoto := samplePhoto "a1" "z.jpg" 7 (some "98_ARCHIVE/z.jpg")

/-- Concrete cache entry claiming the same file is not archived. -/
def c3Entry : CacheEntry :=
  { filePath := some "98_ARCHIVE/z.jpg", day := Option.none, bucket := Option.none,
    sequence := Option.none, favorite := false, rating := 0, archived := false,
    currentName := "z.jpg", subfolderOverride := Option.none }

/-- Stored state holding only that cache entry. -/
def c3Stored : StoredState :=
  { projectName := Option.none, rootPath := Option.none, settings := Option.none,
    dayLabels := Option.none, dayContainers := Option.none,
    lastModified := Option.none, edits := some [c3Entry] }

/-- The post-reconciliation photo for the C3 witness. -/
def c3Result : ProjectPhoto :=
  { mergeCachedEdit c3Photo c3Entry with archived := true, bucket := some "X" }

/-- Witness for C3: a cached `archived = false` entry for a file under the
archive folder ends up archived with bucket `X`. -/
theorem C3_witness :
    c3Entry.archived = false ∧ c3Result.archived = true ∧ c3Result.bucket = some "X" :=
  ⟨rfl, (C3_archive_folder_override c3Stored [c3Photo]).2 c3Result (by decide)
    "98_ARCHIVE/z.jpg" (by decide) (by decide)⟩

/-- C9: the reconciliation of `getState` fails as a whole with a typed error —
not an empty project — whenever the fresh scan yields zero files; the model
(like the source, which contains no state-store write anywhere in `getState`)
persists nothing on this path. -/
theorem C9_zero_files_error (handleName : String) (stored : StoredState)
    (freshPhotos : List ProjectPhoto) (h : freshPhotos.length = 0) :
    getStateModel handleName stored freshPhotos =
      Except.error
        "Project folder access is no longer available. Please reselect the folder." ∧
    ∀ st, getStateModel handleName stored freshPhotos ≠ Except.ok st := by
  unfold getStateModel
  rw [if_pos h]
  exact ⟨rfl, fun st hc => by simp at hc⟩

/-- Witness for C9 at the empty scan. -/
theorem C9_witness :
    getStateModel "root"
      { projectName := Option.none, rootPath := Option.none, settings := Option.none,
        dayLabels := Option.none, dayContainers := Option.none,
        lastModified := Option.none, edits := Option.none } [] =
      Except.error
        "Project folder access is no longer available. Please reselect the folder." :=
  (C9_zero_files_error "root" _ [] rfl).1

/-! ### Pattern detector (`folderDetectionService.ts`)

The regexes are embedded as deterministic matchers; where a regex could
backtrack the collapse to a deterministic reading is justified in the doc
comment of the matcher. -/

/-- The regex class `[\s_-]` (day-pattern separators). -/
def isSepSpace (c : Char) : Bool := isJsSpace c ∨ c = '_' ∨ c = '-'

/-- Numeric value of a digit character. -/
def digitVal (c : Char) : Nat := c.toNat - '0'.toNat

/-- `(\d{1,2})(?:[^\d]|$)` at the head of the list.  Greedy `\d{1,2}` with the
trailing `[^\d]|$` collapses deterministically: with three or more leading
digits both the two-digit and (after backtracking) the one-digit attempt see a
digit next, so the whole pattern fails. -/
def dayDigitsTail : List Char → Option Nat
  | [] => Option.none
  | c1 :: rest =>
    if c1.isDigit then
      match rest with
      | [] => some (digitVal c1)
      | c2 :: rest2 =>
        if c2.isDigit then
          match rest2 with
          | [] => some (10 * digitVal c1 + digitVal c2)
          | c3 :: _ =>
            if c3.isDigit then Option.none else some (10 * digitVal c1 + digitVal c2)
        else some (digitVal c1)
    else Option.none

/-- `[\s_-]?` then the digit tail: the optional separator is never a digit, so
consuming it greedily loses no matches. -/
def sepOptDigits (l : List Char) : Option Nat :=
  match l with
  | c :: rest => if isSepSpace c then dayDigitsTail rest else dayDigitsTail l
  | [] => Option.none

/-- `DAY_PREFIX_PATTERN = /^(?:day|d)[\s_-]?(\d{1,2})(?:[^\d]|$)/i` on the
lowercased name.  When the name starts with "day" the `d`-alternative can
never rescue a failure (the next character is `a`: neither separator nor
digit), so trying "day" first without backtracking is faithful. -/
def matchDayPrefix (l : List Char) : Option Nat :=
  match l with
  | 'd' :: 'a' :: 'y' :: rest => sepOptDigits rest
  | 'd' :: rest => sepOptDigits rest
  | _ => Option.none

/-- Fixed-shape match of `(\d{4})sep(\d{2})sep(\d{2})` at the head. -/
def isoAt (sep : Char) (l : List Char) : Option (Nat × Nat × Nat) :=
  match l with
  | y1 :: y2 :: y3 :: y4 :: s1 :: m1 :: m2 :: s2 :: d1 :: d2 :: _ =>
    if y1.isDigit ∧ y2.isDigit ∧ y3.isDigit ∧ y4.isDigit ∧ s1 = sep ∧
       m1.isDigit ∧ m2.isDigit ∧ s2 = sep ∧ d1.isDigit ∧ d2.isDigit then
      some (1000 * digitVal y1 + 100 * digitVal y2 + 10 * digitVal y3 + digitVal y4,
            (10 * digitVal m1 + digitVal m2, 10 * digitVal d1 + digitVal d2))
    else Option.none
  | _ => Option.none

/-- Unanchored search for the ISO date pattern: leftmost starting position
(the pattern has fixed shape, so leftmost-first is exactly this scan). -/
def findIso (sep : Char) : List Char → Option (Nat × Nat × Nat)
  | [] => Option.none
  | c :: rest =>
    match isoAt sep (c :: rest) with
    | some r => some r
    | Option.none => findIso sep rest

/-- `NUMERIC_PREFIX_PATTERN = /^(\d{1,2})[\s_-]/`.  Backtracking collapses:
after two digits the separator must follow; the one-digit fallback would need
the second digit to be a separator, which it never is. -/
def matchNumericPrefix : List Char → Option Nat
  | [] => Option.none
  | c1 :: rest =>
    if c1.isDigit then
      match rest with
      | [] => Option.none
      | c2 :: rest2 =>
        if c2.isDigit then
          match rest2 with
          | [] => Option.none
          | c3 :: _ =>
            if isSepSpace c3 then some (10 * digitVal c1 + digitVal c2) else Option.none
        else if isSepSpace c2 then some (digitVal c1) else Option.none
    else Option.none

def isLeapYear (y : Nat) : Bool := (y % 4 = 0 ∧ y % 100 ≠ 0) ∨ y % 400 = 0

def daysInMonth (y m : Nat) : Nat :=
  if m = 2 then (if isLeapYear y then 29 else 28)
  else if m = 4 ∨ m = 6 ∨ m = 9 ∨ m = 11 then 30
  else 31

/-- Validity of `new Date("YYYY-MM-DD")` (the engine rejects out-of-range
components of the ISO form as Invalid Date). -/
def isValidDate (y m d : Nat) : Bool :=
  1 ≤ m ∧ m ≤ 12 ∧ 1 ≤ d ∧ d ≤ daysInMonth y m

/-- `calculateDayFromDate` with no trip start: the found date is differenced
against itself, `Math.floor(0 / day) + 1 = 1` when the date is valid, `null`
when `new Date` yields NaN. -/
def calculateDayFromDateNoStart (y m d : Nat) : Option Nat :=
  if isValidDate y m d then some 1 else Option.none

/-- Result record of `extractDayFromFolderName`. -/
structure DayExtraction where
  day : Nat
  pattern : String
  confidence : Confidence
deriving DecidableEq, Repr

/-- `extractDayFromFolderName` invoked with `tripStart` omitted (as
`analyzePathStructure` does): day prefix (range-checked, high), then ISO date
with dashes, then with underscores (self-differenced day 1, medium), then
numeric prefix (range-checked, medium). -/
def extractDayFromFolderName (folderName : String) : Option DayExtraction :=
  let prefixResult : Option DayExtraction :=
    match matchDayPrefix (jsToLower folderName).data with
    | some n =>
      if 1 ≤ n ∧ n ≤ 31 then some ⟨n, "day_prefix", Confidence.high⟩ else Option.none
    | Option.none => Option.none
  match prefixResult with
  | some r => some r
  | Option.none =>
    let isoResult : Option DayExtraction :=
      match findIso '-' folderName.data with
      | some (y, m, d) =>
        match calculateDayFromDateNoStart y m d with
        | some day => some ⟨day, "iso_date", Confidence.medium⟩
        | Option.none => Option.none
      | Option.none => Option.none
    match isoResult with
    | some r => some r
    | Option.none =>
      let isoResult2 : Option DayExtraction :=
        match findIso '_' folderName.data with
        | some (y, m, d) =>
          match calculateDayFromDateNoStart y m d with
          | some day => some ⟨day, "iso_date", Confidence.medium⟩
          | Option.none => Option.none
        | Option.none => Option.none
      match isoResult2 with
      | some r => some r
      | Option.none =>
        match matchNumericPrefix folderName.data with
        | some n =>
          if 1 ≤ n ∧ n ≤ 31 then some ⟨n, "numeric_prefix", Confidence.medium⟩
          else Option.none
        | Option.none => Option.none

/-- The regex class `[A-MX]` under the `i` flag. -/
def isBucketLetter (c : Char) : Bool :=
  ('A' ≤ c ∧ c ≤ 'M') ∨ c = 'X' ∨ ('a' ≤ c ∧ c ≤ 'm') ∨ c = 'x'

/-- `HYPHEN_PATTERN = '[\\s_\\-–—−]'`: whitespace, underscore, hyphen,
en dash, em dash, minus sign. -/
def isHyphenClass (c : Char) : Bool :=
  isJsSpace c ∨ c = '_' ∨ c = '-' ∨ c = '–' ∨ c = '—' ∨ c = '−'

/-- Case-insensitive strip of a lowercase literal prefix. -/
def stripLitCI : List Char → List Char → Option (List Char)
  | [], l => some l
  | _ :: _, [] => Option.none
  | c :: cs, x :: xs => if x.toLower = c then stripLitCI cs xs else Option.none

/-- The literal alone, consumed to the end of the input. -/
def litExact (lit : String) (l : List Char) : Bool :=
  match stripLitCI lit.data l with
  | some r => r.isEmpty
  | Option.none => false

/-- `lit1(?:H?lit2)?$`: after the first literal either the input ends, or an
optional one hyphen-class character and the second literal close it.  The
second literal starts with a letter, so the optional hyphen consumption is
deterministic. -/
def litThenOpt (lit1 lit2 : String) (l : List Char) : Bool :=
  match stripLitCI lit1.data l with
  | some rest =>
    match rest with
    | [] => true
    | c :: rest2 =>
      if isHyphenClass c then litExact lit2 rest2 else litExact lit2 rest
  | Option.none => false

/-- `lit1H?lit2$` (both literals required). -/
def litPair (lit1 lit2 : String) (l : List Char) : Bool :=
  match stripLitCI lit1.data l with
  | some rest =>
    match rest with
    | [] => false
    | c :: rest2 =>
      if isHyphenClass c then litExact lit2 rest2 else litExact lit2 rest
  | Option.none => false

/-- The category alternation of `BUCKET_STANDARD_PATTERN` (anchored at the end
of the name; alternation order is irrelevant because every alternative must
consume the whole remainder). -/
def catMatches (l : List Char) : Bool :=
  litExact "establishing" l || litExact "people" l ||
  litThenOpt "culture" "detail" l || litExact "detail" l ||
  litThenOpt "action" "moment" l || litExact "moment" l ||
  litExact "transition" l ||
  litPair "mood" "food" l || litPair "food" "mood" l ||
  litExact "mood" l || litExact "food" l ||
  litExact "archive" l

/-- `BUCKET_STANDARD_PATTERN = ^([A-MX])(?:H+)(categories)$` (flag `i`).
The greedy `H+` needs no backtracking: every category alternative starts with
a letter, never a hyphen-class character. -/
def matchBucketStandard (folderName : String) : Option String :=
  match folderName.data with
  | c :: s :: rest =>
    if isBucketLetter c ∧ isHyphenClass s then
      if catMatches ((s :: rest).dropWhile isHyphenClass) then
        some (String.mk [c.toUpper])
      else Option.none
    else Option.none
  | _ => Option.none

/-- `BUCKET_LETTER_PATTERN = /^([A-MX])$/i`. -/
def matchBucketLetter (folderName : String) : Option String :=
  match folderName.data with
  | [c] => if isBucketLetter c then some (String.mk [c.toUpper]) else Option.none
  | _ => Option.none

/-- JS line terminators, which `.` never matches. -/
def isLineTerm (c : Char) : Bool :=
  c = '\n' ∨ c = '\r' ∨ c = '\u2028' ∨ c = '\u2029'

/-- `BUCKET_CUSTOM_PATTERN = ^([A-MX])(?:H+)(.+)$` (flag `i`).  After the
letter, some split into a nonempty hyphen-class run and a nonempty `.`-run
reaching the end must exist.  If anything follows the maximal hyphen run, the
`.`-run must cover it entirely, so it may contain no line terminator; if the
whole tail is hyphen-class, `.+` can only take a suffix of that run, which
works exactly when the run has length at least two and its last character is
not a line terminator. -/
def matchBucketCustom (folderName : String) : Option String :=
  match folderName.data with
  | c :: s :: rest =>
    if isBucketLetter c ∧ isHyphenClass s then
      let body := (s :: rest).dropWhile isHyphenClass
      match body with
      | [] =>
        match (s :: rest).getLast? with
        | some lc =>
          if rest.length + 1 ≥ 2 ∧ ¬isLineTerm lc then some (String.mk [c.toUpper])
          else Option.none
        | Option.none => Option.none
      | _ :: _ =>
        if body.all (fun d => ¬isLineTerm d) then some (String.mk [c.toUpper])
        else Option.none
    else Option.none
  | _ => Option.none

/-- `BUCKET_NUMERIC_PATTERN = /^(0[1-6])$/` with `NUMERIC_TO_BUCKET_MAP`. -/
def matchBucketNumeric (folderName : String) : Option String :=
  match folderName.data with
  | ['0', c] =>
    if '1' ≤ c ∧ c ≤ '6' then
      some (match c with
        | '1' => "A" | '2' => "B" | '3' => "C" | '4' => "D" | '5' => "E" | _ => "M")
    else Option.none
  | _ => Option.none

/-- Result record of `detectBucketFromFolderName`. -/
structure BucketDetection where
  bucket : String
  confidence : Confidence
  pattern : String
deriving DecidableEq, Repr

/-- `detectBucketFromFolderName`: standard (high), bare letter (high),
custom suffix (medium), legacy numeric (low), else null. -/
def detectBucketFromFolderName (folderName : String) : Option BucketDetection :=
  match matchBucketStandard folderName with
  | some b => some ⟨b, Confidence.high, "standard"⟩
  | Option.none =>
    match matchBucketLetter folderName with
    | some b => some ⟨b, Confidence.high, "letter"⟩
    | Option.none =>
      match matchBucketCustom folderName with
      | some b => some ⟨b, Confidence.medium, "custom"⟩
      | Option.none =>
        match matchBucketNumeric folderName with
        | some b => some ⟨b, Confidence.low, "numeric"⟩
        | Option.none => Option.none

/-- Result record of `analyzePathStructure`. -/
structure PathAnalysis where
  detectedDay : Option Nat
  detectedBucket : Option String
  isPreOrganized : Bool
  confidence : Confidence
  pathSegments : List String
deriving DecidableEq, Repr

/-- Is this segment the days-folder marker?  (`daysFolder` is the default
`"01_DAYS"`: `buildPhotosFromHandle` calls `analyzePathStructure` without
options.) -/
def isDaysSegment (segment : String) : Bool :=
  let lower := jsToLower segment
  lower = jsToLower "01_DAYS" ∨ lower = "01_days" ∨ lower = "days"

/-- The fallback `for` loop of `analyzePathStructure`: the first day-
extractable segment sets the day (confidence downgraded high→medium,
else→low); the very next segment, if any, is bucket-extracted; then break.
Returns (day, dayConfidence, bucket, bucketConfidence). -/
def fallbackScan : List String → (Option Nat × Confidence × Option String × Confidence)
  | [] => (Option.none, Confidence.none, Option.none, Confidence.none)
  | seg :: rest =>
    match extractDayFromFolderName seg with
    | some d =>
      let dayConf := if d.confidence = Confidence.high then Confidence.medium
        else Confidence.low
      match rest with
      | bucketFolder :: _ =>
        match detectBucketFromFolderName bucketFolder with
        | some b => (some d.day, dayConf, some b.bucket, b.confidence)
        | Option.none => (some d.day, dayConf, Option.none, Confidence.none)
      | [] => (some d.day, dayConf, Option.none, Confidence.none)
    | Option.none => fallbackScan rest

/-- `analyzePathStructure` with default options (the only call in
`buildPhotosFromHandle`): folder segments are the path segments minus the file
name; if the days folder appears before the last folder segment, its successor
is day-extracted and the segment after that bucket-extracted; otherwise the
fallback scan runs over all folder segments. -/
def analyzePathStructure (filePath : String) : PathAnalysis :=
  let rawSegments := splitPathSegments filePath
  let pathSegments := if rawSegments.length > 0 then rawSegments.dropLast else []
  let found :=
    match pathSegments.findIdx? (fun segment => isDaysSegment segment) with
    | some di =>
      if di + 1 < pathSegments.length then
        let dayFolder := (pathSegments[di + 1]?).getD ""
        match extractDayFromFolderName dayFolder with
        | some d =>
          if di + 2 < pathSegments.length then
            let bucketFolder := (pathSegments[di + 2]?).getD ""
            match detectBucketFromFolderName bucketFolder with
            | some b => (some d.day, d.confidence, some b.bucket, b.confidence)
            | Option.none => (some d.day, d.confidence, Option.none, Confidence.none)
          else (some d.day, d.confidence, Option.none, Confidence.none)
        | Option.none => (Option.none, Confidence.none, Option.none, Confidence.none)
      else fallbackScan pathSegments
    | Option.none => fallbackScan pathSegments
  let detectedDay := found.1
  let dayConfidence := found.2.1
  let detectedBucket := found.2.2.1
  let bucketConfidence := found.2.2.2
  let isPreOrganized := detectedDay.isSome && detectedBucket.isSome
  let overallConfidence :=
    if isPreOrganized then
      if dayConfidence = Confidence.high ∧ bucketConfidence = Confidence.high then
        Confidence.high
      else if dayConfidence ≠ Confidence.none ∧ bucketConfidence ≠ Confidence.none then
        Confidence.medium
      else Confidence.low
    else if detectedDay.isSome then dayConfidence
    else Confidence.none
  { detectedDay := detectedDay
    detectedBucket := detectedBucket
    isPreOrganized := isPreOrganized
    confidence := overallConfidence
    pathSegments := pathSegments }

/-! ### Scan and duplicate suppression (`buildPhotosFromHandle`) -/

/-- One file surviving `collectFiles` (already extension-filtered and
hidden-file-filtered by the traversal collaborator): its relative path, its
`file.name`, `file.lastModified` and `file.size`. -/
structure FileEntry where
  path : String
  name : String
  lastModified : Int
  size : Nat
deriving DecidableEq, Repr

/-- Positional constructor for `FileEntry`: path, file name, lastModified, size. -/
def mkEntry (path fname : String) (lastModified : Int) (size : Nat) : FileEntry :=
  ⟨path, fname, lastModified, size⟩

/-- `` `${originalName}|${timestamp}|${file.size}` `` — the duplicate
fingerprint.  The original name is used as-is (no lowercasing). -/
def fileFingerprint (entry : FileEntry) : String :=
  entry.name ++ "|" ++ toString entry.lastModified ++ "|" ++ toString entry.size

/-- The photo record pushed for one kept file.  The thumbnail pipeline (object
URLs, HEIC conversion, cache) is the out-of-scope media collaborator and is
modelled as the empty session handle; `generateId()` values are opaque fresh
strings, supplied here by the caller. -/
def photoOfEntry (id : String) (entry : FileEntry) : ProjectPhoto :=
  let pathAnalysis := analyzePathStructure entry.path
  let pathSegments := splitPathSegments entry.path
  let folderSegments := if pathSegments.length > 1 then pathSegments.dropLast else []
  let sourceFolder := jsOrStr folderSegments.getLast? "root"
  let accepted := pathAnalysis.isPreOrganized ∧
    (pathAnalysis.confidence = Confidence.high ∨ pathAnalysis.confidence = Confidence.medium)
  { id := id
    originalName := entry.name
    currentName := entry.name
    timestamp := entry.lastModified
    day := if accepted then pathAnalysis.detectedDay.map (fun n => (n : Int)) else Option.none
    bucket := if accepted then pathAnalysis.detectedBucket else Option.none
    sequence := Option.none
    favorite := false
    rating := 0
    archived := false
    thumbnail := ""
    filePath := some entry.path
    sourceFolder := sourceFolder
    folderHierarchy := folderSegments
    detectedDay := pathAnalysis.detectedDay.map (fun n => (n : Int))
    detectedBucket := pathAnalysis.detectedBucket
    isPreOrganized := pathAnalysis.isPreOrganized
    organizationConfidence := pathAnalysis.confidence
    subfolderOverride := Option.none }

/-- The `seenFiles` pass of `buildPhotosFromHandle`: keep a file only when its
fingerprint has not been seen earlier in this scan (`seen` is the fingerprint
set accumulated so far); the earlier-enumerated copy wins. -/
def keptEntries : List FileEntry → List String → List FileEntry
  | [], _ => []
  | e :: rest, seen =>
    if seen.contains (fileFingerprint e) then keptEntries rest seen
    else e :: keptEntries rest (fileFingerprint e :: seen)

/-- `buildPhotosFromHandle` on the collected file list: fingerprint
deduplication in enumeration order, one photo per kept file (ids modelled as
the kept-position rendered to a string — the source's `generateId()` is an
opaque fresh value), then the final `sort((a, b) => a.timestamp - b.timestamp)`
(a stable sort, modelled by `mergeSort`). -/
def buildPhotosFromHandle (files : List FileEntry) : List ProjectPhoto :=
  ((keptEntries files []).enum.map
      (fun ie => photoOfEntry (toString ie.1) ie.2)).mergeSort
    (fun a b => a.timestamp - b.timestamp ≤ 0)

theorem photoOfEntry_fields (id : String) (entry : FileEntry) :
    (photoOfEntry id entry).day =
      (if (analyzePathStructure entry.path).isPreOrganized ∧
          ((analyzePathStructure entry.path).confidence = Confidence.high ∨
           (analyzePathStructure entry.path).confidence = Confidence.medium) then
        (analyzePathStructure entry.path).detectedDay.map (fun n => (n : Int))
      else Option.none) ∧
    (photoOfEntry id entry).bucket =
      (if (analyzePathStructure entry.path).isPreOrganized ∧
          ((analyzePathStructure entry.path).confidence = Confidence.high ∨
           (analyzePathStructure entry.path).confidence = Confidence.medium) then
        (analyzePathStructure entry.path).detectedBucket
      else Option.none) ∧
    (photoOfEntry id entry).detectedDay =
      (analyzePathStructure entry.path).detectedDay.map (fun n => (n : Int)) ∧
    (photoOfEntry id entry).detectedBucket = (analyzePathStructure entry.path).detectedBucket ∧
    (photoOfEntry id entry).organizationConfidence =
      (analyzePathStructure entry.path).confidence :=
  ⟨rfl, rfl, rfl, rfl, rfl⟩

/-- C7 counterexample: for a file under `01_DAYS/Day 3/` with no bucket
folder, the path detector reports confidence `high` with `detectedDay = 3`,
yet the photo's initial editable `day` stays `null` — detection is applied
only when `isPreOrganized` also holds, so "exactly when confidence is high or
medium" is false. -/
theorem C7_counterexample :
    (analyzePathStructure "01_DAYS/Day 3/img.jpg").confidence = Confidence.high ∧
    (analyzePathStructure "01_DAYS/Day 3/img.jpg").detectedDay = some 3 ∧
    (analyzePathStructure "01_DAYS/Day 3/img.jpg").isPreOrganized = false ∧
    (photoOfEntry "0" (mkEntry "01_DAYS/Day 3/img.jpg" "img.jpg" 0 1)).day = Option.none := by
  refine ⟨by decide, by decide, by decide, by decide⟩

/-- C7 (amended): the detector's output is accepted as the photo's initial
editable `day`/`bucket` exactly when the detection is pre-organized (both day
and bucket found) **and** its confidence is high or medium; a low- or
none-confidence detection, or a detection that is not pre-organized, is
recorded in `detectedDay`/`detectedBucket` for provenance but never applied. -/
theorem C7_detection_gating (entry : FileEntry) (id : String) :
    ((analyzePathStructure entry.path).isPreOrganized = true ∧
       ((analyzePathStructure entry.path).confidence = Confidence.high ∨
        (analyzePathStructure entry.path).confidence = Confidence.medium) →
      (photoOfEntry id entry).day =
        (analyzePathStructure entry.path).detectedDay.map (fun n => (n : Int)) ∧
      (photoOfEntry id entry).bucket = (analyzePathStructure entry.path).detectedBucket) ∧
    ((analyzePathStructure entry.path).confidence = Confidence.low ∨
      (analyzePathStructure entry.path).confidence = Confidence.none ∨
      (analyzePathStructure entry.path).isPreOrganized = false →
      (photoOfEntry id entry).day = Option.none ∧
      (photoOfEntry id entry).bucket = Option.none) ∧
    (photoOfEntry id entry).detectedDay =
      (analyzePathStructure entry.path).detectedDay.map (fun n => (n : Int)) ∧
    (photoOfEntry id entry).detectedBucket = (analyzePathStructure entry.path).detectedBucket ∧
    (photoOfEntry id entry).organizationConfidence =
      (analyzePathStructure entry.path).confidence := by
  obtain ⟨hday, hbucket, hdd, hdb, hconf⟩ := photoOfEntry_fields id entry
  refine ⟨?_, ?_, hdd, hdb, hconf⟩
  · rintro ⟨h1, h2⟩
    rw [hday, hbucket, if_pos ⟨h1, h2⟩, if_pos ⟨h1, h2⟩]
    exact ⟨rfl, rfl⟩
  · intro h
    have hcond : ¬((analyzePathStructure entry.path).isPreOrganized = true ∧
        ((analyzePathStructure entry.path).confidence = Confidence.high ∨
         (analyzePathStructure entry.path).confidence = Confidence.medium)) := by
      rintro ⟨h1, h2⟩
      rcases h with h | h | h
      · rcases h2 with h2 | h2 <;> rw [h] at h2 <;> exact absurd h2 (by decide)
      · rcases h2 with h2 | h2 <;> rw [h] at h2 <;> exact absurd h2 (by decide)
      · rw [h1] at h
        exact absurd h (by decide)
    rw [hday, hbucket, if_neg hcond, if_neg hcond]
    exact ⟨rfl, rfl⟩

/-- Witness for C7 (amended) at a fully pre-organized path. -/
theorem C7_witness :
    (photoOfEntry "1" (mkEntry "01_DAYS/Day 2/A_Establishing/img.jpg" "img.jpg" 0 1)).day = some 2 ∧
    (photoOfEntry "1" (mkEntry "01_DAYS/Day 2/A_Establishing/img.jpg" "img.jpg" 0 1)).bucket = some "A" := by
  have h := (C7_detection_gating
    (mkEntry "01_DAYS/Day 2/A_Establishing/img.jpg" "img.jpg" 0 1) "1").1
    ⟨by decide, Or.inl (by decide)⟩
  exact ⟨h.1.trans (by decide), h.2.trans (by decide)⟩

theorem keptEntries_pairwise : ∀ (files : List FileEntry) (seen : List String),
    (keptEntries files seen).Pairwise
      (fun e g => fileFingerprint e ≠ fileFingerprint g) ∧
    ∀ g ∈ keptEntries files seen, seen.contains (fileFingerprint g) = false
  | [], seen => by simp [keptEntries]
  | e :: rest, seen => by
    by_cases hc : seen.contains (fileFingerprint e) = true
    · simp only [keptEntries, if_pos hc]
      exact keptEntries_pairwise rest seen
    · have hc' : seen.contains (fileFingerprint e) = false := by
        cases h : seen.contains (fileFingerprint e)
        · rfl
        · exact absurd h hc
      simp only [keptEntries, if_neg hc]
      obtain ⟨hP, hS⟩ := keptEntries_pairwise rest (fileFingerprint e :: seen)
      constructor
      · refine List.Pairwise.cons ?_ hP
        intro g hg
        have := hS g hg
        simp only [List.contains_cons, Bool.or_eq_false_iff] at this
        intro he
        rw [he] at this
        simp at this
      · intro g hg
        rcases List.mem_cons.1 hg with rfl | hg2
        · exact hc'
        · have := hS g hg2
          simp only [List.contains_cons, Bool.or_eq_false_iff] at this
          exact this.2

theorem keptEntries_first_wins :
    ∀ (files : List FileEntry) (seen : List String) (e : FileEntry), e ∈ files →
      seen.contains (fileFingerprint e) = false →
      ∃ g, files.find? (fun x => fileFingerprint x = fileFingerprint e) = some g ∧
        g ∈ keptEntries files seen
  | [], _, e, he, _ => absurd he (List.not_mem_nil e)
  | f :: rest, seen, e, he, hseen => by
    by_cases hfp : fileFingerprint f = fileFingerprint e
    · refine ⟨f, ?_, ?_⟩
      · rw [List.find?_cons_of_pos]
        simp [hfp]
      · have hcf : seen.contains (fileFingerprint f) = false := by rw [hfp]; exact hseen
        have hcond : ¬(seen.contains (fileFingerprint f) = true) := by rw [hcf]; simp
        simp only [keptEntries, if_neg hcond]
        exact List.mem_cons_self f _
    · have herest : e ∈ rest := by
        rcases List.mem_cons.1 he with rfl | h2
        · exact absurd rfl hfp
        · exact h2
      have hpred : ¬((fun x => decide (fileFingerprint x = fileFingerprint e)) f = true) := by
        simp [hfp]
      rw [List.find?_cons_of_neg rest hpred]
      by_cases hc : seen.contains (fileFingerprint f) = true
      · simp only [keptEntries, if_pos hc]
        exact keptEntries_first_wins rest seen e herest hseen
      · simp only [keptEntries, if_neg hc]
        have hne2 : fileFingerprint e ≠ fileFingerprint f := fun h => hfp h.symm
        obtain ⟨g, hfind, hmem⟩ := keptEntries_first_wins rest
          (fileFingerprint f :: seen) e herest
          (by simp only [List.contains_cons, Bool.or_eq_false_iff]
              refine ⟨by simp [hne2], hseen⟩)
        exact ⟨g, hfind, List.mem_cons_of_mem f hmem⟩

/-- Concrete pair for the C4 counterexample: same timestamp and size, names
equal only up to case. -/
def c4f1 : FileEntry := mkEntry "X/A.jpg" "A.jpg" 0 5

def c4f2 : FileEntry := mkEntry "Y/a.jpg" "a.jpg" 0 5

/-- C4 counterexample: the fingerprint does **not** lowercase the original
name — two files agreeing on (lowercased name, timestamp, size) but differing
in case are both kept, where the claimed lowercased fingerprint would have
discarded the second. -/
theorem C4_counterexample :
    jsToLower c4f1.name = jsToLower c4f2.name ∧
    c4f1.lastModified = c4f2.lastModified ∧
    c4f1.size = c4f2.size ∧
    c4f1.path ≠ c4f2.path ∧
    (buildPhotosFromHandle [c4f1, c4f2]).length = 2 := by
  refine ⟨by decide, rfl, rfl, by decide, ?_⟩
  unfold buildPhotosFromHandle
  rw [List.length_mergeSort, List.length_map, List.enum_length]
  decide

/-- C4 (amended): the fingerprint is the exact triple (original name,
last-modified timestamp, byte size) — no lowercasing — rendered as
`name|timestamp|size`; a file whose fingerprint was already seen earlier in
the scan is discarded.  Kept entries have pairwise distinct fingerprints, the
output has exactly one photo per kept entry, and every scanned file is
represented by the first-enumerated file with its fingerprint, whose path the
photo carries. -/
theorem C4_duplicate_suppression (files : List FileEntry) :
    (keptEntries files []).Pairwise
      (fun e g => fileFingerprint e ≠ fileFingerprint g) ∧
    (buildPhotosFromHandle files).length = (keptEntries files []).length ∧
    (∀ e ∈ files,
      ∃ g, files.find? (fun x => fileFingerprint x = fileFingerprint e) = some g ∧
        g ∈ keptEntries files [] ∧
        ∃ p ∈ buildPhotosFromHandle files,
          p.filePath = some g.path ∧ p.originalName = g.name ∧
          p.timestamp = g.lastModified) := by
  refine ⟨(keptEntries_pairwise files []).1, ?_, ?_⟩
  · unfold buildPhotosFromHandle
    rw [List.length_mergeSort, List.length_map, List.enum_length]
  · intro e he
    obtain ⟨g, hfind, hmem⟩ := keptEntries_first_wins files [] e he (by simp)
    refine ⟨g, hfind, hmem, ?_⟩
    obtain ⟨i, hig⟩ := List.get_of_mem hmem
    have hi : i.1 < (keptEntries files []).length := i.2
    have henum : ((i.1, g) : Nat × FileEntry) ∈ (keptEntries files []).enum := by
      rw [List.mk_mem_enum_iff_getElem?]
      rw [List.getElem?_eq_getElem hi]
      rw [← hig]
      simp
    refine ⟨photoOfEntry (toString i.1) g, ?_, rfl, rfl, rfl⟩
    unfold buildPhotosFromHandle
    rw [List.mem_mergeSort]
    exact List.mem_map.2 ⟨(i.1, g), henum, rfl⟩

/-- Concrete duplicate pair for the C4 witness: identical fingerprints under
different folders. -/
def c4w1 : FileEntry := mkEntry "A/dup.jpg" "dup.jpg" 100 7

def c4w2 : FileEntry := mkEntry "B/dup.jpg" "dup.jpg" 100 7

/-- Witness for C4 (amended): the duplicate under `B/` resolves to the
first-enumerated copy under `A/`. -/
theorem C4_witness :
    keptEntries [c4w1, c4w2] [] = [c4w1] ∧
    ∃ g, [c4w1, c4w2].find? (fun x => fileFingerprint x = fileFingerprint c4w2) = some g ∧
      g ∈ keptEntries [c4w1, c4w2] [] ∧
      ∃ p ∈ buildPhotosFromHandle [c4w1, c4w2],
        p.filePath = some g.path ∧ p.originalName = g.name ∧
        p.timestamp = g.lastModified :=
  ⟨by decide, (C4_duplicate_suppression [c4w1, c4w2]).2.2 c4w2 (by decide)⟩

theorem digit_toLower (c : Char) (h : c.isDigit = true) : c.toLower = c := by
  unfold Char.toLower
  have hv : 48 ≤ c.toNat ∧ c.toNat ≤ 57 := by
    unfold Char.isDigit at h
    simp only [Bool.and_eq_true, decide_eq_true_eq] at h
    exact ⟨h.1, h.2⟩
  rw [if_neg (by omega)]

theorem isSepSpace_elim {s : Char} (hs : isSepSpace s = true) :
    s = ' ' ∨ s = '\t' ∨ s = '\n' ∨ s = '\r' ∨ s = '\x0b' ∨ s = '\x0c' ∨
    s = '_' ∨ s = '-' := by
  simp only [isSepSpace, isJsSpace, Bool.or_eq_true, decide_eq_true_eq] at hs
  tauto

theorem digit_not_sep {c : Char} (h : c.isDigit = true) : isSepSpace c = false := by
  cases hs : isSepSpace c
  · rfl
  · exfalso
    rcases isSepSpace_elim hs with rfl | rfl | rfl | rfl | rfl | rfl | rfl | rfl <;>
      exact absurd h (by decide)

theorem sep_not_digit {s : Char} (hs : isSepSpace s = true) : s.isDigit = false := by
  rcases isSepSpace_elim hs with rfl | rfl | rfl | rfl | rfl | rfl | rfl | rfl <;> decide

theorem sep_ne_a {s : Char} (hs : isSepSpace s = true) : s ≠ 'a' := by
  intro hh
  subst hh
  exact absurd hs (by decide)

theorem digit_ne_a {c : Char} (h : c.isDigit = true) : c ≠ 'a' := by
  intro hh
  subst hh
  exact absurd h (by decide)

theorem digit_ne_d {c : Char} (h : c.isDigit = true) : c ≠ 'd' := by
  intro hh
  subst hh
  exact absurd h (by decide)

theorem matchDayPrefix_day (tail : List Char) :
    matchDayPrefix ('d' :: 'a' :: 'y' :: tail) = sepOptDigits tail := rfl

theorem matchDayPrefix_d (x : Char) (xs : List Char) (hx : x ≠ 'a') :
    matchDayPrefix ('d' :: x :: xs) = sepOptDigits (x :: xs) := by
  rw [matchDayPrefix.eq_def]
  split
  · rename_i rest heq
    injection heq with h1 h2
    injection h2 with h3 h4
    exact absurd h3 hx
  · rename_i rest heq
    injection heq with h1 h2
    rw [← h2]
  · rename_i h1 h2
    exact absurd rfl (h2 (x :: xs))

theorem matchDayPrefix_none (x : Char) (xs : List Char) (hx : x ≠ 'd') :
    matchDayPrefix (x :: xs) = Option.none := by
  rw [matchDayPrefix.eq_def]
  split
  · rename_i rest heq
    injection heq with h1 h2
    exact absurd h1 hx
  · rename_i rest heq
    injection heq with h1 h2
    exact absurd h1 hx
  · rfl

theorem dayDigitsTail_eval (digits rest : List Char) (n : Nat)
    (hd : (∃ c1, digits = [c1] ∧ c1.isDigit = true ∧ n = digitVal c1) ∨
      (∃ c1 c2, digits = [c1, c2] ∧ c1.isDigit = true ∧ c2.isDigit = true ∧
        n = 10 * digitVal c1 + digitVal c2))
    (hr : rest = [] ∨ ∃ c t, rest = c :: t ∧ c.isDigit = false) :
    dayDigitsTail (digits ++ rest) = some n := by
  rcases hd with ⟨c1, rfl, hc1, rfl⟩ | ⟨c1, c2, rfl, hc1, hc2, rfl⟩
  · rcases hr with rfl | ⟨c, t, rfl, hcn⟩
    · simp [dayDigitsTail, hc1]
    · simp [dayDigitsTail, hc1, hcn]
  · rcases hr with rfl | ⟨c, t, rfl, hcn⟩
    · simp [dayDigitsTail, hc1, hc2]
    · simp [dayDigitsTail, hc1, hc2, hcn]

theorem sepOptDigits_eval (sepChars digits rest : List Char) (n : Nat)
    (hsep : sepChars = [] ∨ ∃ s, sepChars = [s] ∧ isSepSpace s = true)
    (hd : (∃ c1, digits = [c1] ∧ c1.isDigit = true ∧ n = digitVal c1) ∨
      (∃ c1 c2, digits = [c1, c2] ∧ c1.isDigit = true ∧ c2.isDigit = true ∧
        n = 10 * digitVal c1 + digitVal c2))
    (hr : rest = [] ∨ ∃ c t, rest = c :: t ∧ c.isDigit = false) :
    sepOptDigits (sepChars ++ digits ++ rest) = some n := by
  have htail := dayDigitsTail_eval digits rest n hd hr
  rcases hsep with rfl | ⟨s, rfl, hs⟩
  · simp only [List.nil_append]
    rcases hd with ⟨c1, hdig, hc1, _⟩ | ⟨c1, c2, hdig, hc1, _, _⟩ <;>
      · rw [hdig]
        rw [hdig] at htail
        simp only [List.cons_append, List.nil_append] at htail ⊢
        simp [sepOptDigits, digit_not_sep hc1, htail]
  · simp only [List.cons_append, List.nil_append]
    simp [sepOptDigits, hs]
    exact htail

/-- C5 counterexample: `"2_2024-03-15"` begins with one digit in [1,31]
followed by a separator (the claimed numeric-prefix shape, predicting day 2,
medium), but the ISO-date pattern has higher priority and the code returns
day 1 (the self-differenced date) instead of 2. -/
theorem C5_counterexample :
    matchNumericPrefix ("2_2024-03-15").data = some 2 ∧
    (1 : Nat) ≤ 2 ∧ (2 : Nat) ≤ 31 ∧
    extractDayFromFolderName "2_2024-03-15" =
      some ⟨1, "iso_date", Confidence.medium⟩ ∧
    (some (⟨1, "iso_date", Confidence.medium⟩ : DayExtraction) ≠
      some (⟨2, "numeric_prefix", Confidence.medium⟩ : DayExtraction)) := by
  refine ⟨by decide, by decide, by decide, by decide, by decide⟩

/-- C5 (amended): a folder name whose lowercased form begins with "day" or
"d", an optional separator, then 1–2 digits with value in [1,31] followed by
a non-digit or the end, extracts that value with confidence high; a name
beginning with 1–2 digits in [1,31] followed by a separator **and containing
no ISO-date substring (`YYYY-MM-DD` or `YYYY_MM_DD`)** extracts that value
with confidence medium (the ISO pattern has higher priority, see the
counterexample); a name matching no pattern, such as "Random Folder", gives
day = null.  The claim's examples are confirmed verbatim. -/
theorem C5_day_extraction :
    (∀ (name : String) (preChars sepChars digitChars restChars : List Char) (n : Nat),
      (jsToLower name).data = preChars ++ sepChars ++ digitChars ++ restChars →
      (preChars = ['d', 'a', 'y'] ∨ preChars = ['d']) →
      (sepChars = [] ∨ ∃ s, sepChars = [s] ∧ isSepSpace s = true) →
      ((∃ c1, digitChars = [c1] ∧ c1.isDigit = true ∧ n = digitVal c1) ∨
       (∃ c1 c2, digitChars = [c1, c2] ∧ c1.isDigit = true ∧ c2.isDigit = true ∧
         n = 10 * digitVal c1 + digitVal c2)) →
      (restChars = [] ∨ ∃ c t, restChars = c :: t ∧ c.isDigit = false) →
      1 ≤ n → n ≤ 31 →
      extractDayFromFolderName name = some ⟨n, "day_prefix", Confidence.high⟩) ∧
    (∀ (name : String) (digitChars : List Char) (s : Char) (restChars : List Char) (n : Nat),
      name.data = digitChars ++ s :: restChars →
      ((∃ c1, digitChars = [c1] ∧ c1.isDigit = true ∧ n = digitVal c1) ∨
       (∃ c1 c2, digitChars = [c1, c2] ∧ c1.isDigit = true ∧ c2.isDigit = true ∧
         n = 10 * digitVal c1 + digitVal c2)) →
      isSepSpace s = true →
      findIso '-' name.data = Option.none →
      findIso '_' name.data = Option.none →
      1 ≤ n → n ≤ 31 →
      extractDayFromFolderName name = some ⟨n, "numeric_prefix", Confidence.medium⟩) ∧
    extractDayFromFolderName "Random Folder" = Option.none ∧
    extractDayFromFolderName "Day 7" = some ⟨7, "day_prefix", Confidence.high⟩ ∧
    extractDayFromFolderName "D07" = some ⟨7, "day_prefix", Confidence.high⟩ ∧
    extractDayFromFolderName "day_07x" = some ⟨7, "day_prefix", Confidence.high⟩ ∧
    extractDayFromFolderName "7_Something" =
      some ⟨7, "numeric_prefix", Confidence.medium⟩ := by
  refine ⟨?_, ?_, by decide, by decide, by decide, by decide, by decide⟩
  · intro name preChars sepChars digitChars restChars n hdata hpre hsep hd hr h1 h31
    have hpm : matchDayPrefix (jsToLower name).data = some n := by
      rcases hpre with rfl | rfl
      · rw [hdata]
        simp only [List.cons_append, List.nil_append]
        rw [matchDayPrefix_day]
        exact sepOptDigits_eval sepChars digitChars restChars n hsep hd hr
      · rw [hdata]
        have htail : ∃ x xs, sepChars ++ digitChars ++ restChars = x :: xs ∧ x ≠ 'a' := by
          rcases hsep with rfl | ⟨s, rfl, hs⟩
          · rcases hd with ⟨c1, rfl, hc1, _⟩ | ⟨c1, c2, rfl, hc1, _, _⟩
            · exact ⟨c1, restChars, by simp, digit_ne_a hc1⟩
            · exact ⟨c1, c2 :: restChars, by simp, digit_ne_a hc1⟩
          · exact ⟨s, digitChars ++ restChars, by simp, sep_ne_a hs⟩
        obtain ⟨x, xs, hxs, hxa⟩ := htail
        simp only [List.cons_append, List.nil_append]
        rw [hxs, matchDayPrefix_d x xs hxa, ← hxs]
        exact sepOptDigits_eval sepChars digitChars restChars n hsep hd hr
    simp only [extractDayFromFolderName, hpm]
    rw [if_pos ⟨h1, h31⟩]
  · intro name digitChars s restChars n hdata hd hs hiso1 hiso2 h1 h31
    have hpm : matchDayPrefix (jsToLower name).data = Option.none := by
      have hlow : (jsToLower name).data = name.data.map Char.toLower := rfl
      rw [hlow, hdata]
      rcases hd with ⟨c1, rfl, hc1, _⟩ | ⟨c1, c2, rfl, hc1, _, _⟩ <;>
        · simp only [List.cons_append, List.nil_append, List.map_cons]
          rw [digit_toLower c1 hc1]
          exact matchDayPrefix_none c1 _ (digit_ne_d hc1)
    have hnum : matchNumericPrefix name.data = some n := by
      rw [hdata]
      rcases hd with ⟨c1, rfl, hc1, rfl⟩ | ⟨c1, c2, rfl, hc1, hc2, rfl⟩
      · simp only [List.cons_append, List.nil_append]
        simp [matchNumericPrefix, hc1, sep_not_digit hs, hs]
      · simp only [List.cons_append, List.nil_append]
        simp [matchNumericPrefix, hc1, hc2, hs]
    simp only [extractDayFromFolderName, hpm, hiso1, hiso2, hnum]
    rw [if_pos ⟨h1, h31⟩]

/-- Witness for C5 (amended) through both universally quantified clauses. -/
theorem C5_witness :
    extractDayFromFolderName "Day 12" = some ⟨12, "day_prefix", Confidence.high⟩ ∧
    extractDayFromFolderName "9-Hiking" = some ⟨9, "numeric_prefix", Confidence.medium⟩ :=
  ⟨C5_day_extraction.1 "Day 12" ['d', 'a', 'y'] [' '] ['1', '2'] [] 12 (by decide)
      (Or.inl rfl) (Or.inr ⟨' ', rfl, by decide⟩)
      (Or.inr ⟨'1', '2', rfl, by decide, by decide, by decide⟩) (Or.inl rfl)
      (by decide) (by decide),
    C5_day_extraction.2.1 "9-Hiking" ['9'] '-' ['H', 'i', 'k', 'i', 'n', 'g'] 9 (by decide)
      (Or.inl ⟨'9', rfl, by decide, by decide⟩) (by decide) (by decide) (by decide)
      (by decide) (by decide)⟩

theorem isHyphenClass_elim {s : Char} (hs : isHyphenClass s = true) :
    s = ' ' ∨ s = '\t' ∨ s = '\n' ∨ s = '\r' ∨ s = '\x0b' ∨ s = '\x0c' ∨
    s = '_' ∨ s = '-' ∨ s = '–' ∨ s = '—' ∨ s = '−' := by
  simp only [isHyphenClass, isJsSpace, Bool.or_eq_true, decide_eq_true_eq] at hs
  tauto

theorem hyphen_toLower {x : Char} (hx : isHyphenClass x = true) : x.toLower = x := by
  rcases isHyphenClass_elim hx with rfl|rfl|rfl|rfl|rfl|rfl|rfl|rfl|rfl|rfl|rfl <;> decide

theorem catMatches_hyphen_head {x : Char} {xs : List Char}
    (hx : isHyphenClass x = true) : catMatches (x :: xs) = false := by
  have hne : ∀ (c : Char) (cs : List Char), isHyphenClass c = false →
      stripLitCI (c :: cs) (x :: xs) = Option.none := by
    intro c cs hc
    have hlow : x.toLower = x := hyphen_toLower hx
    simp only [stripLitCI, hlow]
    rw [if_neg]
    intro h
    rw [h] at hx
    rw [hx] at hc
    exact Bool.noConfusion hc
  have h1 : stripLitCI ("establishing").data (x :: xs) = Option.none := by
    rw [show ("establishing").data = 'e' :: ("stablishing").data from rfl]
    exact hne 'e' _ (by decide)
  have h2 : stripLitCI ("people").data (x :: xs) = Option.none := by
    rw [show ("people").data = 'p' :: ("eople").data from rfl]
    exact hne 'p' _ (by decide)
  have h3 : stripLitCI ("culture").data (x :: xs) = Option.none := by
    rw [show ("culture").data = 'c' :: ("ulture").data from rfl]
    exact hne 'c' _ (by decide)
  have h4 : stripLitCI ("detail").data (x :: xs) = Option.none := by
    rw [show ("detail").data = 'd' :: ("etail").data from rfl]
    exact hne 'd' _ (by decide)
  have h5 : stripLitCI ("action").data (x :: xs) = Option.none := by
    rw [show ("action").data = 'a' :: ("ction").data from rfl]
    exact hne 'a' _ (by decide)
  have h6 : stripLitCI ("moment").data (x :: xs) = Option.none := by
    rw [show ("moment").data = 'm' :: ("oment").data from rfl]
    exact hne 'm' _ (by decide)
  have h7 : stripLitCI ("transition").data (x :: xs) = Option.none := by
    rw [show ("transition").data = 't' :: ("ransition").data from rfl]
    exact hne 't' _ (by decide)
  have h8 : stripLitCI ("mood").data (x :: xs) = Option.none := by
    rw [show ("mood").data = 'm' :: ("ood").data from rfl]
    exact hne 'm' _ (by decide)
  have h9 : stripLitCI ("food").data (x :: xs) = Option.none := by
    rw [show ("food").data = 'f' :: ("ood").data from rfl]
    exact hne 'f' _ (by decide)
  have h10 : stripLitCI ("archive").data (x :: xs) = Option.none := by
    rw [show ("archive").data = 'a' :: ("rchive").data from rfl]
    exact hne 'a' _ (by decide)
  simp only [catMatches, litExact, litThenOpt, litPair,
    h1, h2, h3, h4, h5, h6, h7, h8, h9, h10]
  decide

theorem dropWhile_hyphen_cons {s x : Char} {xs : List Char}
    (hs : isHyphenClass s = true) (hx : isHyphenClass x = false) :
    (s :: x :: xs).dropWhile isHyphenClass = x :: xs := by
  simp [List.dropWhile_cons, hs, hx]

/-- C6: bucket detection from a folder name.  (1) A bucket letter (`[A-MX]`,
either case), a hyphen-class separator (whitespace, underscore, hyphen, en
dash, em dash, minus sign) and a canonical category name (the category
alternation of the standard pattern, case-insensitive) give that letter
uppercased with confidence high, pattern "standard".  (2) A name that is
exactly one bucket letter gives that letter uppercased with confidence high,
pattern "letter".  (3) A bucket letter, a hyphen-class separator and an
arbitrary suffix (nonempty after separators, no line terminators, not a
category) give the letter with confidence medium, pattern "custom".  (4) The
legacy numeric codes "01".."06" map 1:1 to the six non-archive bucket letters
A, B, C, D, E, M with confidence low.  (5) A name matched by no pattern gives
null.  The claim's verbatim examples close the statement. -/
theorem C6_bucket_detection :
    (∀ (name : String) (c s : Char) (rest : List Char),
      name.data = c :: s :: rest →
      isBucketLetter c = true → isHyphenClass s = true → catMatches rest = true →
      detectBucketFromFolderName name =
        some ⟨String.mk [c.toUpper], Confidence.high, "standard"⟩) ∧
    (∀ (name : String) (c : Char),
      name.data = [c] → isBucketLetter c = true →
      detectBucketFromFolderName name =
        some ⟨String.mk [c.toUpper], Confidence.high, "letter"⟩) ∧
    (∀ (name : String) (c s x : Char) (xs : List Char),
      name.data = c :: s :: x :: xs →
      isBucketLetter c = true → isHyphenClass s = true → isHyphenClass x = false →
      catMatches (x :: xs) = false →
      (x :: xs).all (fun d => ¬isLineTerm d) = true →
      detectBucketFromFolderName name =
        some ⟨String.mk [c.toUpper], Confidence.medium, "custom"⟩) ∧
    (detectBucketFromFolderName "01" = some ⟨"A", Confidence.low, "numeric"⟩ ∧
     detectBucketFromFolderName "02" = some ⟨"B", Confidence.low, "numeric"⟩ ∧
     detectBucketFromFolderName "03" = some ⟨"C", Confidence.low, "numeric"⟩ ∧
     detectBucketFromFolderName "04" = some ⟨"D", Confidence.low, "numeric"⟩ ∧
     detectBucketFromFolderName "05" = some ⟨"E", Confidence.low, "numeric"⟩ ∧
     detectBucketFromFolderName "06" = some ⟨"M", Confidence.low, "numeric"⟩) ∧
    (∀ (name : String),
      matchBucketStandard name = Option.none → matchBucketLetter name = Option.none →
      matchBucketCustom name = Option.none → matchBucketNumeric name = Option.none →
      detectBucketFromFolderName name = Option.none) ∧
    (detectBucketFromFolderName "A_Establishing" =
        some ⟨"A", Confidence.high, "standard"⟩ ∧
     detectBucketFromFolderName "a-establishing" =
        some ⟨"A", Confidence.high, "standard"⟩ ∧
     detectBucketFromFolderName "A–Establishing" =
        some ⟨"A", Confidence.high, "standard"⟩ ∧
     detectBucketFromFolderName "A" = some ⟨"A", Confidence.high, "letter"⟩ ∧
     detectBucketFromFolderName "A_Whatever" = some ⟨"A", Confidence.medium, "custom"⟩ ∧
     detectBucketFromFolderName "Random" = Option.none ∧
     detectBucketFromFolderName "" = Option.none) := by
  refine ⟨?std, ?lett, ?cust, by decide, ?els, by decide⟩
  case std =>
    intro name c s rest hdata hc hs hcat
    cases rest with
    | nil => exact absurd hcat (by decide)
    | cons x xs =>
      cases hx : isHyphenClass x with
      | true =>
        rw [catMatches_hyphen_head hx] at hcat
        exact Bool.noConfusion hcat
      | false =>
        have hstd : matchBucketStandard name = some (String.mk [c.toUpper]) := by
          simp only [matchBucketStandard, hdata]
          rw [if_pos ⟨hc, hs⟩, dropWhile_hyphen_cons hs hx, if_pos hcat]
        simp only [detectBucketFromFolderName, hstd]
  case lett =>
    intro name c hdata hc
    have hstd : matchBucketStandard name = Option.none := by
      simp only [matchBucketStandard, hdata]
    have hlet : matchBucketLetter name = some (String.mk [c.toUpper]) := by
      simp only [matchBucketLetter, hdata]
      rw [if_pos hc]
    simp only [detectBucketFromFolderName, hstd, hlet]
  case cust =>
    intro name c s x xs hdata hc hs hx hcat hall
    have hstd : matchBucketStandard name = Option.none := by
      simp only [matchBucketStandard, hdata]
      rw [if_pos ⟨hc, hs⟩, dropWhile_hyphen_cons hs hx]
      rw [if_neg]
      intro h
      rw [hcat] at h
      exact Bool.noConfusion h
    have hlet : matchBucketLetter name = Option.none := by
      simp only [matchBucketLetter, hdata]
    have hcus : matchBucketCustom name = some (String.mk [c.toUpper]) := by
      simp only [matchBucketCustom, hdata]
      rw [if_pos ⟨hc, hs⟩]
      simp only [dropWhile_hyphen_cons hs hx]
      rw [if_pos hall]
    simp only [detectBucketFromFolderName, hstd, hlet, hcus]
  case els =>
    intro name h1 h2 h3 h4
    simp only [detectBucketFromFolderName, h1, h2, h3, h4]

/-- Witness for C6 through the quantified standard and custom clauses. -/
theorem C6_witness :
    detectBucketFromFolderName "B Mood-Food" =
      some ⟨String.mk ['B'.toUpper], Confidence.high, "standard"⟩ ∧
    detectBucketFromFolderName "c—Sunset" =
      some ⟨String.mk ['c'.toUpper], Confidence.medium, "custom"⟩ :=
  ⟨C6_bucket_detection.1 "B Mood-Food" 'B' ' ' ("Mood-Food").data rfl
      (by decide) (by decide) (by decide),
   C6_bucket_detection.2.2.1 "c—Sunset" 'c' '—' 'S' ("unset").data rfl
      (by decide) (by decide) (by decide) (by decide) (by decide)⟩

end Narrative
